import Mathlib

/-!
# ELF executable writer (`lib/ReaderWriter/ELF/Writer.cpp`)

A shallow embedding of `ExecutableWriter<ELFT>` and statements about it.

* The objects the writer owns are fields of one record, `Writer`; what the layout engine
  assigns (sections, segments, addresses, offsets) is its field `layout`. Member functions are
  functions on that record.
* Integers are natural numbers; `uint64_t` sums are reduced modulo `2 ^ 64`, sums of two
  program-header words modulo `2 ^ 64` (ELF64) or `2 ^ 32` (ELF32). A value stored into a
  table entry or a header field is stored as it is: the addresses, offsets and sizes the
  layout assigns fit the words of the ELF class.
* An iterator is `Option Nat`: `some i` is the position `i`, `none` is `end()`.
  Dereferencing `end()` is undefined behaviour and is the outcome `WriterError.derefEnd`.
* `assert` stops the run with `WriterError.assertion` unless the build defines `NDEBUG`.
* Functions of the linker that `Writer.cpp` calls and does not define (layout engine, target
  handler, output buffer) are fields of `Env`, so every statement holds for each
  implementation of them; small container operations are definitions marked
  `Modelled from the spec`.
-/

namespace lld
namespace elf

/-! ## Constants of `llvm/Support/ELF.h` -/

def PT_LOAD : Nat := 1
def PF_X : Nat := 1
def PF_W : Nat := 2
def PF_R : Nat := 4
def DT_NEEDED : Nat := 1
def DT_HASH : Nat := 4
def DT_STRTAB : Nat := 5
def DT_SYMTAB : Nat := 6
def DT_STRSZ : Nat := 10
def DT_SYMENT : Nat := 11
def SHN_UNDEF : Nat := 0
def SHN_ABS : Nat := 0xfff1
def EI_CLASS : Nat := 4
def EI_DATA : Nat := 5
def EI_VERSION : Nat := 6
def EI_OSABI : Nat := 7
def EI_NIDENT : Nat := 16
def ELFCLASS32 : Nat := 1
def ELFCLASS64 : Nat := 2
def ELFDATA2LSB : Nat := 1
def ELFDATA2MSB : Nat := 2

/-! ## Outcomes -/

/-- Ways in which a member function stops without completing. -/
inductive WriterError where
  /-- An `assert` fired; the text is the assertion's message. -/
  | assertion (msg : String)
  /-- An `end()` iterator, or a slot past the end of a table, was dereferenced. -/
  | derefEnd
  /-- An `error_code` of the output buffer. -/
  | io (ec : Nat)
  deriving DecidableEq, Repr

/-- Result of a member function: it completes with a value or stops with an error. -/
inductive Outcome (α : Type) where
  | ok (a : α)
  | error (e : WriterError)
  deriving DecidableEq, Repr

/-- Sequencing: the first error stops the run. -/
def Outcome.bind {α β : Type} (x : Outcome α) (f : α → Outcome β) : Outcome β :=
  match x with
  | .ok a => f a
  | .error e => .error e

/-- The run completed. -/
def Outcome.isOk {α : Type} : Outcome α → Bool
  | .ok _ => true
  | .error _ => false

instance : Monad Outcome where
  pure := Outcome.ok
  bind := Outcome.bind

/-- C `assert(cond && msg)`: compiled out when `NDEBUG` is defined. -/
def cAssert (ndebug : Bool) (cond : Bool) (msg : String) : Outcome Unit :=
  if ndebug || cond then .ok () else .error (.assertion msg)

/-- Reduction of a `uint64_t` value. -/
def u64 (x : Nat) : Nat := x % 2 ^ 64

/-! ## Data model -/

/-- An atom as the writer sees it: its name. -/
structure Atom where
  name : String
  deriving DecidableEq, Repr

/-- A shared-library atom: a name and the load-name of its library. -/
structure SharedLibraryAtom where
  name : String
  loadName : String
  deriving DecidableEq, Repr

/-- The atom a shared-library atom is when passed as `const Atom *`. -/
def SharedLibraryAtom.toAtom (a : SharedLibraryAtom) : Atom := ⟨a.name⟩

/-- `AtomLayout`: an atom with its assigned file offset and virtual address. -/
structure AtomLayout where
  atom : Atom
  fileOffset : Nat
  virtualAddr : Nat
  deriving DecidableEq, Repr

/-- `Chunk<ELFT>::Kind`. -/
inductive Kind where
  | K_ELFHeader
  | K_ELFProgramHeader
  | K_ELFSegment
  | K_ELFSection
  | K_AtomSection
  | K_SectionHeader
  deriving DecidableEq, Repr

/-- A chunk of `_layout->sections()`; `atoms` is read only when the kind is `K_AtomSection`. -/
structure Chunk where
  name : String
  kind : Kind
  ordinal : Nat
  atoms : List AtomLayout
  fileOffset : Nat
  virtualAddr : Nat
  fileSize : Nat
  memSize : Nat
  deriving DecidableEq, Repr

/-- `MergedSections<ELFT>`: an output section. -/
structure MergedSections where
  name : String
  kind : Kind
  hasSegment : Bool
  virtualAddr : Nat
  memSize : Nat
  fileOffset : Nat
  deriving DecidableEq, Repr

/-- `Elf_Phdr`: one program-header entry. -/
structure Phdr where
  p_type : Nat
  p_flags : Nat
  p_offset : Nat
  p_vaddr : Nat
  p_filesz : Nat
  p_memsz : Nat
  deriving DecidableEq, Repr

/-- `ProgramHeader<ELFT>`: its entries and where the layout placed it. -/
structure ProgramHeader where
  entries : List Phdr
  fileOffset : Nat
  entsize : Nat
  deriving DecidableEq, Repr

/-- `Elf_Dyn`: one entry of the dynamic table. -/
structure Dyn where
  d_tag : Nat
  d_val : Nat
  deriving DecidableEq, Repr

/-- One `addSymbol` call as the symbol table recorded it. -/
structure Sym where
  atom : Atom
  sectionIndex : Nat
  addr : Nat
  deriving DecidableEq, Repr

/-- `StringTable<ELFT>`: the strings added so far, first to last, and whether equal strings
share one offset. -/
structure StringTable where
  strings : List String
  dedup : Bool
  deriving DecidableEq, Repr

/-- One entry of the section-header table: the merged section `appendSection` was given and
the placement the entry records. -/
structure Shdr where
  sec : MergedSections
  sh_offset : Nat
  sh_addr : Nat
  sh_size : Nat
  deriving DecidableEq, Repr

/-- `SectionHeader<ELFT>`: the entries appended so far, first to last. -/
structure SectionHeader where
  entries : List Shdr
  deriving DecidableEq, Repr

/-- `Header<ELFT>`: the fields of `Elf_Ehdr`. -/
structure Header where
  e_ident : List Nat
  e_type : Nat
  e_machine : Nat
  e_version : Nat
  e_entry : Nat
  e_phoff : Nat
  e_shoff : Nat
  e_flags : Nat
  e_ehsize : Nat
  e_phentsize : Nat
  e_phnum : Nat
  e_shentsize : Nat
  e_shnum : Nat
  e_shstrndx : Nat
  deriving DecidableEq, Repr

/-- `CRuntimeFile<ELFT>`: the atoms `addDefaultAtoms` injects. -/
structure CRuntimeFile where
  undefinedAtoms : List Atom
  absoluteAtoms : List Atom
  deriving DecidableEq, Repr

/-- `File`: the resolved input of `writeFile`. -/
structure File where
  defined : List Atom
  absolute : List Atom
  undefined : List Atom
  sharedLibrary : List SharedLibraryAtom
  deriving DecidableEq, Repr

/-- Addresses and sizes of the dynamic sections that `updateDynamicTable` reads:
`_hashTable->virtualAddr()`, `_dynamicStringTable->virtualAddr()` and `memSize()`,
`_dynamicSymbolTable->virtualAddr()` and `getEntSize()`. -/
structure DynamicSections where
  hashVirtualAddr : Nat
  dynstrVirtualAddr : Nat
  dynstrMemSize : Nat
  dynsymVirtualAddr : Nat
  dynsymEntSize : Nat
  deriving DecidableEq, Repr

/-- `TargetLayout<ELFT>` with what it assigns to the chunks handed to it: the sections, the
merged (output) sections, the absolute atoms, the program header (`setProgramHeader`), the
placement of the section-header table and of `.shstrtab`, and the placement of the dynamic
sections. -/
structure Layout where
  sections : List Chunk
  mergedSections : List MergedSections
  absoluteAtoms : List AtomLayout
  programHeader : ProgramHeader
  shdrtabFileOffset : Nat
  shstrtabOrdinal : Nat
  dynamicSections : DynamicSections
  deriving DecidableEq, Repr

/-- The state of one `ExecutableWriter<ELFT>`. -/
structure Writer where
  layout : Layout
  header : Header
  symtab : List Sym
  shdrtab : SectionHeader
  dynamicTable : List Dyn
  dynamicSymbolTable : List Sym
  dynamicStringTable : StringTable
  soNeeded : List String
  dt_hash : Nat
  dt_strtab : Nat
  dt_symtab : Nat
  dt_strsz : Nat
  dt_syment : Nat
  atomToAddressMap : List (Atom × Nat)
  runtimeFile : CRuntimeFile
  deriving DecidableEq, Repr

/-- What `writeFile` puts into the output buffer. -/
structure Image where
  size : Nat
  header : Header
  programHeader : ProgramHeader
  sections : List Chunk
  deriving DecidableEq, Repr

/-- Everything `Writer.cpp` calls and does not define: the target info, the target handler,
the layout engine, the output buffer and the build configuration. -/
structure Env where
  /-- `ELFTargetInfo::is64Bits`. -/
  is64Bits : Bool
  /-- `ELFTargetInfo::isLittleEndian`. -/
  isLittleEndian : Bool
  /-- `ELFTargetInfo::isDynamic`. -/
  isDynamic : Bool
  /-- `ELFTargetInfo::getOutputType`. -/
  outputType : Nat
  /-- `ELFTargetInfo::getOutputMachine`. -/
  outputMachine : Nat
  /-- `ELFTargetInfo::getEntry`. -/
  entry : String
  /-- Whether the build defines `NDEBUG`. -/
  ndebug : Bool
  /-- `TargetHandler::doesOverrideHeader`. -/
  doesOverrideHeader : Bool
  /-- `TargetHandler::setHeaderInfo`. -/
  setHeaderInfo : Header → Header
  /-- `TargetHandler::finalizeSymbolValues`. -/
  finalizeSymbolValues : Layout → Layout
  /-- `TargetHandler::createDefaultSections`. -/
  targetCreateDefaultSections : Layout → Layout
  /-- `TargetHandler::addFiles`. -/
  targetAddFiles : List CRuntimeFile → List CRuntimeFile
  /-- `ProgramHeader::findProgramHeader (type, flags, flagsClear)`. -/
  findProgramHeader : ProgramHeader → Nat → Nat → Nat → Option Phdr
  /-- `Layout::addAtom` for a defined atom. -/
  addDefinedAtom : Layout → Atom → Layout
  /-- `Layout::addAtom` for an absolute atom. -/
  addAbsoluteAtom : Layout → Atom → Layout
  /-- `Layout::doPreFlight`. -/
  doPreFlight : Layout → Layout
  /-- `Layout::assignSectionsToSegments`. -/
  assignSectionsToSegments : Layout → Layout
  /-- `Layout::assignFileOffsets`. -/
  assignFileOffsets : Layout → Layout
  /-- `Layout::assignVirtualAddress`. -/
  assignVirtualAddress : Layout → Layout
  /-- `Layout::finalize`. -/
  layoutFinalize : Layout → Layout
  /-- `Layout::assignOffsetsForMiscSections`. -/
  assignOffsetsForMiscSections : Layout → Layout
  /-- `DefaultLayout::hasOutputSegment`. -/
  hasOutputSegment : Chunk → Bool
  /-- `Layout::findAtomAddrByName`: the address, when the name is found. -/
  findAtomAddrByName : Layout → String → Option Nat
  /-- Order in which a `StringSet` holding the given keys (in insertion order) is iterated. -/
  stringSetOrder : List String → List String
  /-- `SectionHeader::fileSize`. -/
  shdrtabFileSize : SectionHeader → Nat
  /-- `SectionHeader::numHeaders`. -/
  shdrtabNumHeaders : SectionHeader → Nat
  /-- `FileOutputBuffer::create (path, size)`: `0`, or the error code. -/
  bufferCreate : String → Nat → Nat
  /-- `FileOutputBuffer::commit`: `0`, or the error code. -/
  bufferCommit : Image → Nat

/-! ## Lookups in the layout -/

/-- Modelled from the spec: `Layout::findAbsoluteAtom` is declared in `DefaultLayout.h`, which
is not part of the sources; an atom is "located in the layout" by its name. The result is the
position of the first absolute atom with the name, `none` (the `end()` iterator) when there is
none. -/
def findAbsoluteAtom : List AtomLayout → String → Option Nat
  | [], _ => none
  | a :: l, name =>
    if a.atom.name = name then some 0 else (findAbsoluteAtom l name).map (· + 1)

/-- Modelled from the spec: `Layout::findOutputSection` is declared in `DefaultLayout.h`, which
is not part of the sources; "if a section with that name exists" it is returned, otherwise
the null pointer (`none`). -/
def findOutputSection (layout : Layout) (name : String) : Option MergedSections :=
  layout.mergedSections.find? (fun s => s.name = name)

/-- The list after `(*it)->_virtualAddr = v` for the iterator at position `i`. -/
def assignVirtualAddr : List AtomLayout → Nat → Nat → List AtomLayout
  | [], _, _ => []
  | a :: l, 0, v => { a with virtualAddr := v } :: l
  | a :: l, i + 1, v => a :: assignVirtualAddr l i v

/-- The statement `(*it)->_virtualAddr = v` on the layout's absolute atoms: undefined
behaviour when `it` is `end()`. -/
def setVirtualAddr (w : Writer) (it : Option Nat) (v : Nat) : Outcome Writer :=
  match it with
  | none => .error .derefEnd
  | some i =>
    .ok { w with layout := { w.layout with
            absoluteAtoms := assignVirtualAddr w.layout.absoluteAtoms i v } }

/-- The value `_virtualAddr` of the first atom of the list with the given name, which is the
atom `findAbsoluteAtom` locates (`atomValueIn_eq_find`). -/
def atomValueIn : List AtomLayout → String → Option Nat
  | [], _ => none
  | a :: l, name => if a.atom.name = name then some a.virtualAddr else atomValueIn l name

/-- The value of the linker symbol `name`: `_virtualAddr` of the absolute atom of the layout
that `findAbsoluteAtom` locates for `name`; `none` when there is no such atom. -/
def atomValue (w : Writer) (name : String) : Option Nat :=
  atomValueIn w.layout.absoluteAtoms name

/-- A run of statements `(*findAbsoluteAtom(name))->_virtualAddr = v`, first to last. -/
def assignAll (w : Writer) : List (String × Nat) → Outcome Writer
  | [] => .ok w
  | (name, v) :: rest =>
    (setVirtualAddr w (findAbsoluteAtom w.layout.absoluteAtoms name) v).bind
      (fun w1 => assignAll w1 rest)

/-! ## `addDefaultAtoms` and `finalizeDefaultAtomValues` -/

/-- `CRuntimeFile::addUndefinedAtom`. -/
def CRuntimeFile.addUndefinedAtom (f : CRuntimeFile) (name : String) : CRuntimeFile :=
  { f with undefinedAtoms := f.undefinedAtoms ++ [⟨name⟩] }

/-- `CRuntimeFile::addAbsoluteAtom`. -/
def CRuntimeFile.addAbsoluteAtom (f : CRuntimeFile) (name : String) : CRuntimeFile :=
  { f with absoluteAtoms := f.absoluteAtoms ++ [⟨name⟩] }

/-- `ExecutableWriter::addDefaultAtoms`. -/
def addDefaultAtoms (env : Env) (w : Writer) : Writer :=
  let f := w.runtimeFile
  let f := f.addUndefinedAtom env.entry
  let f := f.addAbsoluteAtom "__bss_start"
  let f := f.addAbsoluteAtom "__bss_end"
  let f := f.addAbsoluteAtom "_end"
  let f := f.addAbsoluteAtom "end"
  let f := f.addAbsoluteAtom "__preinit_array_start"
  let f := f.addAbsoluteAtom "__preinit_array_end"
  let f := f.addAbsoluteAtom "__init_array_start"
  let f := f.addAbsoluteAtom "__init_array_end"
  let f := f.addAbsoluteAtom "__rela_iplt_start"
  let f := f.addAbsoluteAtom "__rela_iplt_end"
  let f := f.addAbsoluteAtom "__fini_array_start"
  let f := f.addAbsoluteAtom "__fini_array_end"
  { w with runtimeFile := f }

/-- The name `start` the lambda `startEnd` builds from `sym`. -/
def startName (sym : String) : String := "__" ++ sym ++ "_start"

/-- The name `end` the lambda `startEnd` builds from `sym`. -/
def endName (sym : String) : String := "__" ++ sym ++ "_end"

/-- The lambda `startEnd` of `finalizeDefaultAtomValues`. -/
def startEnd (w : Writer) (sym sec : String) : Outcome Writer :=
  let s := findAbsoluteAtom w.layout.absoluteAtoms (startName sym)
  let e := findAbsoluteAtom w.layout.absoluteAtoms (endName sym)
  match findOutputSection w.layout sec with
  | some sect => do
    let w ← setVirtualAddr w s sect.virtualAddr
    setVirtualAddr w e (u64 (sect.virtualAddr + sect.memSize))
  | none => do
    let w ← setVirtualAddr w s 0
    setVirtualAddr w e 0

/-- Sum of two words of a program-header entry: 64-bit words in ELF64, 32-bit in ELF32. -/
def phdrAdd (env : Env) (a b : Nat) : Nat :=
  (a + b) % 2 ^ (if env.is64Bits then 64 else 32)

/-- `ExecutableWriter::finalizeDefaultAtomValues`. -/
def finalizeDefaultAtomValues (env : Env) (w : Writer) : Outcome Writer := do
  let bssStartAtomIter := findAbsoluteAtom w.layout.absoluteAtoms "__bss_start"
  let bssEndAtomIter := findAbsoluteAtom w.layout.absoluteAtoms "__bss_end"
  let underScoreEndAtomIter := findAbsoluteAtom w.layout.absoluteAtoms "_end"
  let endAtomIter := findAbsoluteAtom w.layout.absoluteAtoms "end"
  let w ← startEnd w "preinit_array" ".preinit_array"
  let w ← startEnd w "init_array" ".init_array"
  let w ← startEnd w "rela_iplt" ".rela.plt"
  let w ← startEnd w "fini_array" ".fini_array"
  cAssert env.ndebug
    (!(bssStartAtomIter == none || bssEndAtomIter == none ||
       underScoreEndAtomIter == none || endAtomIter == none))
    "Unable to find the absolute atoms that have been added by lld"
  let phe := env.findProgramHeader w.layout.programHeader PT_LOAD PF_W PF_X
  cAssert env.ndebug (!(phe == none)) "Can't find a data segment in the program header!"
  match phe with
  | none => .error .derefEnd
  | some phe =>
    let w ← setVirtualAddr w bssStartAtomIter (phdrAdd env phe.p_vaddr phe.p_filesz)
    let w ← setVirtualAddr w bssEndAtomIter (phdrAdd env phe.p_vaddr phe.p_memsz)
    let w ← setVirtualAddr w underScoreEndAtomIter (phdrAdd env phe.p_vaddr phe.p_memsz)
    let w ← setVirtualAddr w endAtomIter (phdrAdd env phe.p_vaddr phe.p_memsz)
    pure { w with layout := env.finalizeSymbolValues w.layout }

/-- The names `finalizeDefaultAtomValues` passes to `findAbsoluteAtom`, in the order of the
calls: the four fixed names, then the two names each call of `startEnd` builds. -/
def finalizeLookupNames : List String :=
  ["__bss_start", "__bss_end", "_end", "end",
   startName "preinit_array", endName "preinit_array",
   startName "init_array", endName "init_array",
   startName "rela_iplt", endName "rela_iplt",
   startName "fini_array", endName "fini_array"]

/-- The four calls of `startEnd`: the symbol stem and the section name of each. -/
def startEndCalls : List (String × String) :=
  [("preinit_array", ".preinit_array"), ("init_array", ".init_array"),
   ("rela_iplt", ".rela.plt"), ("fini_array", ".fini_array")]

/-- The two values one call of `startEnd` assigns for the section name `sec`. -/
def startEndValues (layout : Layout) (sec : String) : Nat × Nat :=
  match findOutputSection layout sec with
  | some s => (s.virtualAddr, u64 (s.virtualAddr + s.memSize))
  | none => (0, 0)

/-- The two assignments of one call of `startEnd`. -/
def startEndWrites (layout : Layout) (sym sec : String) : List (String × Nat) :=
  [(startName sym, (startEndValues layout sec).1), (endName sym, (startEndValues layout sec).2)]

/-- The assignments of the four calls of `startEnd`, in order. -/
def arrayWrites (layout : Layout) : List (String × Nat) :=
  startEndWrites layout "preinit_array" ".preinit_array" ++
  (startEndWrites layout "init_array" ".init_array" ++
  (startEndWrites layout "rela_iplt" ".rela.plt" ++
  startEndWrites layout "fini_array" ".fini_array"))

/-- The four assignments that follow the lookup of the data segment `phe`. -/
def bssWrites (env : Env) (phe : Phdr) : List (String × Nat) :=
  [("__bss_start", phdrAdd env phe.p_vaddr phe.p_filesz),
   ("__bss_end", phdrAdd env phe.p_vaddr phe.p_memsz),
   ("_end", phdrAdd env phe.p_vaddr phe.p_memsz),
   ("end", phdrAdd env phe.p_vaddr phe.p_memsz)]

/-- The target's `finalizeSymbolValues` keeps to its interface (it assigns the target's own
symbols): the values of the twelve linker-defined atoms are as it found them. -/
def HookKeepsDefaults (env : Env) : Prop :=
  ∀ (layout : Layout) (name : String), name ∈ finalizeLookupNames →
    atomValueIn (env.finalizeSymbolValues layout).absoluteAtoms name =
      atomValueIn layout.absoluteAtoms name

/-! ## Container operations -/

/-- Modelled from the spec: `DynamicTable::addEntry` is declared in `SectionChunks.h`, which is
not part of the sources; `addEntry(tag, value) → slot_index` appends the entry and returns the
index of its slot. -/
def DynamicTable.addEntry (tbl : List Dyn) (e : Dyn) : List Dyn × Nat :=
  (tbl ++ [e], tbl.length)

/-- The table after `tbl[i].d_un.d_val = v`, `none` when there is no slot `i`. -/
def DynamicTable.patch : List Dyn → Nat → Nat → Option (List Dyn)
  | [], _, _ => none
  | e :: l, 0, v => some ({ e with d_val := v } :: l)
  | e :: l, i + 1, v => (DynamicTable.patch l i v).map (fun l1 => e :: l1)

/-- The statement `tbl[i].d_un.d_val = v` on the range `_dynamicTable->entries()`: undefined
behaviour when the slot is past the end. -/
def patchEntry (tbl : List Dyn) (i v : Nat) : Outcome (List Dyn) :=
  match DynamicTable.patch tbl i v with
  | some t => .ok t
  | none => .error .derefEnd

/-- Offset of the first string equal to `s` in a buffer whose strings start at `base`, each
followed by a NUL. -/
def offsetIn : List String → String → Nat → Option Nat
  | [], _, _ => none
  | x :: l, s, base => if x = s then some base else offsetIn l s (base + x.utf8ByteSize + 1)

/-- Modelled from the spec: the string table is "an append-only byte buffer starting with a
NUL"; its size is that NUL plus every string with its terminator. -/
def StringTable.size (t : StringTable) : Nat :=
  1 + (t.strings.map (fun s => s.utf8ByteSize + 1)).sum

/-- Offset at which `s` is stored in the table, `none` when it is not. -/
def StringTable.offsetOf (t : StringTable) (s : String) : Option Nat :=
  offsetIn t.strings s 1

/-- Modelled from the spec: `StringTable::addString` is declared in `SectionChunks.h`, which is
not part of the sources; `addString(s)` "returns the offset and deduplicates when marked as
deduplicating": a deduplicating table returns the offset of an equal string it holds, otherwise
the string is appended and the offset is the old size. -/
def StringTable.addString (t : StringTable) (s : String) : StringTable × Nat :=
  match (if t.dedup then t.offsetOf s else none) with
  | some off => (t, off)
  | none => ({ t with strings := t.strings ++ [s] }, t.size)

/-- Modelled from the spec: `SymbolTable::addSymbol` is declared in `SectionChunks.h`, which is
not part of the sources; `addSymbol(atom, section_ordinal, value=0)` "appends an entry". -/
def SymbolTable.addSymbol (t : List Sym) (atom : Atom) (sectionIndex addr : Nat) : List Sym :=
  t ++ [⟨atom, sectionIndex, addr⟩]

/-- `llvm::StringSet::insert`: a key the set holds is not added again. The list keeps the keys
in the order of their first insertion. -/
def StringSet.insert (s : List String) (key : String) : List String :=
  if key ∈ s then s else s ++ [key]

/-- Modelled from the spec: `SectionHeader::appendSection` is declared in `HeaderChunks.h`, which
is not part of the sources; it appends one entry describing the merged section. -/
def SectionHeader.appendSection (t : SectionHeader) (s : MergedSections) : SectionHeader :=
  { t with entries := t.entries ++ [⟨s, s.fileOffset, s.virtualAddr, s.memSize⟩] }

/-- The entries after the placement of entry `i` is set from the section `c`. -/
def updateEntry : List Shdr → Nat → Chunk → List Shdr
  | [], _, _ => []
  | e :: l, 0, c =>
    { e with sh_offset := c.fileOffset, sh_addr := c.virtualAddr, sh_size := c.fileSize } :: l
  | e :: l, i + 1, c => e :: updateEntry l i c

/-- Modelled from the spec: `SectionHeader::updateSection` is declared in `HeaderChunks.h`, which
is not part of the sources; it "updates their entries": the entry at the section's ordinal takes
the section's placement, and no entry is added or removed. -/
def SectionHeader.updateSection (t : SectionHeader) (c : Chunk) : SectionHeader :=
  { t with entries := updateEntry t.entries c.ordinal c }

/-- `Header::e_ident (idx, value)`. -/
def Header.set_e_ident (h : Header) (idx v : Nat) : Header :=
  { h with e_ident := h.e_ident.set idx v }

/-- Modelled from the spec: the constructor `Header<ELFT>(ti)` is declared in `HeaderChunks.h`,
which is not part of the sources; sixteen identification bytes that start with the ELF magic,
every other field zero but the size of the header itself. -/
def newHeader (env : Env) : Header :=
  { e_ident := [0x7f, 0x45, 0x4c, 0x46, 0, 0, 0, 0, 0, 0, 0, 0, 0, 0, 0, 0]
    e_type := 0, e_machine := 0, e_version := 0, e_entry := 0, e_phoff := 0, e_shoff := 0
    e_flags := 0, e_ehsize := if env.is64Bits then 64 else 52
    e_phentsize := 0, e_phnum := 0, e_shentsize := 0, e_shnum := 0, e_shstrndx := 0 }

/-- `sizeof(Elf_Phdr)`. -/
def phdrEntSize (env : Env) : Nat := if env.is64Bits then 56 else 32

/-- `sizeof(Elf_Shdr)`. -/
def shdrEntSize (env : Env) : Nat := if env.is64Bits then 64 else 40

/-- A section chunk as its constructor leaves it: named, not yet placed. -/
def newChunk (name : String) (kind : Kind) : Chunk :=
  { name := name, kind := kind, ordinal := 0, atoms := [], fileOffset := 0, virtualAddr := 0
    fileSize := 0, memSize := 0 }

/-- `Layout::addSection`. -/
def Layout.addSection (layout : Layout) (c : Chunk) : Layout :=
  { layout with sections := layout.sections ++ [c] }

/-- `dyn_cast<AtomSection<ELFT>>(sec)` succeeds. -/
def Chunk.isAtomSection (c : Chunk) : Bool := c.kind = Kind.K_AtomSection

/-- `dyn_cast<Section<ELFT>>(sec)` succeeds. -/
def Chunk.isSection (c : Chunk) : Bool :=
  c.kind = Kind.K_ELFSection || c.kind = Kind.K_AtomSection

/-! ## Member functions of `ExecutableWriter` -/

/-- `ExecutableWriter::createDefaultDynamicEntries`. -/
def createDefaultDynamicEntries (w : Writer) : Writer :=
  let dyn : Dyn := { d_tag := 0, d_val := 0 }
  let dyn := { dyn with d_tag := DT_HASH }
  let r := DynamicTable.addEntry w.dynamicTable dyn
  let w := { w with dynamicTable := r.1, dt_hash := r.2 }
  let dyn := { dyn with d_tag := DT_STRTAB }
  let r := DynamicTable.addEntry w.dynamicTable dyn
  let w := { w with dynamicTable := r.1, dt_strtab := r.2 }
  let dyn := { dyn with d_tag := DT_SYMTAB }
  let r := DynamicTable.addEntry w.dynamicTable dyn
  let w := { w with dynamicTable := r.1, dt_symtab := r.2 }
  let dyn := { dyn with d_tag := DT_STRSZ }
  let r := DynamicTable.addEntry w.dynamicTable dyn
  let w := { w with dynamicTable := r.1, dt_strsz := r.2 }
  let dyn := { dyn with d_tag := DT_SYMENT }
  let r := DynamicTable.addEntry w.dynamicTable dyn
  { w with dynamicTable := r.1, dt_syment := r.2 }

/-- `ExecutableWriter::updateDynamicTable`. -/
def updateDynamicTable (w : Writer) : Outcome Writer := do
  let tbl := w.dynamicTable
  let tbl ← patchEntry tbl w.dt_hash w.layout.dynamicSections.hashVirtualAddr
  let tbl ← patchEntry tbl w.dt_strtab w.layout.dynamicSections.dynstrVirtualAddr
  let tbl ← patchEntry tbl w.dt_symtab w.layout.dynamicSections.dynsymVirtualAddr
  let tbl ← patchEntry tbl w.dt_strsz w.layout.dynamicSections.dynstrMemSize
  let tbl ← patchEntry tbl w.dt_syment w.layout.dynamicSections.dynsymEntSize
  pure { w with dynamicTable := tbl }

/-- `ExecutableWriter::buildChunks`. -/
def buildChunks (env : Env) (file : File) (w : Writer) : Writer :=
  let layout := file.defined.foldl env.addDefinedAtom w.layout
  let layout := file.absolute.foldl env.addAbsoluteAtom layout
  { w with layout := layout }

/-- `ExecutableWriter::buildStaticSymbolTable`. -/
def buildStaticSymbolTable (file : File) (w : Writer) : Writer :=
  let symtab := w.layout.sections.foldl
    (fun t sec =>
      if sec.isAtomSection then
        sec.atoms.foldl (fun t atom => SymbolTable.addSymbol t atom.atom sec.ordinal
          atom.virtualAddr) t
      else t)
    w.symtab
  let symtab := w.layout.absoluteAtoms.foldl
    (fun t atom => SymbolTable.addSymbol t atom.atom SHN_ABS atom.virtualAddr) symtab
  let symtab := file.undefined.foldl (fun t a => SymbolTable.addSymbol t a SHN_UNDEF 0) symtab
  { w with symtab := symtab }

/-- The second loop of `buildDynamicSymbolTable`: one `DT_NEEDED` entry per key, its value the
offset `addString` returns. -/
def addNeeded : List String → StringTable → List Dyn → StringTable × List Dyn
  | [], dynstr, tbl => (dynstr, tbl)
  | loadName :: rest, dynstr, tbl =>
    let r := dynstr.addString loadName
    let dyn : Dyn := { d_tag := DT_NEEDED, d_val := r.2 }
    addNeeded rest r.1 (DynamicTable.addEntry tbl dyn).1

/-- `ExecutableWriter::buildDynamicSymbolTable`. -/
def buildDynamicSymbolTable (env : Env) (file : File) (w : Writer) : Writer :=
  let w := file.sharedLibrary.foldl
    (fun w sla =>
      { w with
        dynamicSymbolTable := SymbolTable.addSymbol w.dynamicSymbolTable sla.toAtom SHN_UNDEF 0
        soNeeded := StringSet.insert w.soNeeded sla.loadName })
    w
  let r := addNeeded (env.stringSetOrder w.soNeeded) w.dynamicStringTable w.dynamicTable
  { w with dynamicStringTable := r.1, dynamicTable := r.2 }

/-- `ExecutableWriter::buildAtomToAddressMap`; a later pair for an atom overrides an earlier
one. -/
def buildAtomToAddressMap (w : Writer) : Writer :=
  let m := w.layout.sections.foldl
    (fun m sec =>
      if sec.isAtomSection then
        sec.atoms.foldl (fun m atom => m ++ [(atom.atom, atom.virtualAddr)]) m
      else m)
    w.atomToAddressMap
  let m := w.layout.absoluteAtoms.foldl (fun m atom => m ++ [(atom.atom, atom.virtualAddr)]) m
  { w with atomToAddressMap := m }

/-- `ExecutableWriter::buildSectionHeaderTable`. -/
def buildSectionHeaderTable (w : Writer) : Writer :=
  let shdrtab := w.layout.mergedSections.foldl
    (fun t mergedSec =>
      if mergedSec.kind ≠ Kind.K_ELFSection ∧ mergedSec.kind ≠ Kind.K_AtomSection then t
      else if mergedSec.hasSegment then t.appendSection mergedSec
      else t)
    w.shdrtab
  { w with shdrtab := shdrtab }

/-- `ExecutableWriter::assignSectionsWithNoSegments`. -/
def assignSectionsWithNoSegments (env : Env) (w : Writer) : Writer :=
  let shdrtab := w.layout.mergedSections.foldl
    (fun t mergedSec =>
      if mergedSec.kind ≠ Kind.K_ELFSection ∧ mergedSec.kind ≠ Kind.K_AtomSection then t
      else if !mergedSec.hasSegment then t.appendSection mergedSec
      else t)
    w.shdrtab
  let layout := env.assignOffsetsForMiscSections w.layout
  let shdrtab := layout.sections.foldl
    (fun t sec =>
      if sec.isSection then
        if !env.hasOutputSegment sec then t.updateSection sec else t
      else t)
    shdrtab
  { w with layout := layout, shdrtab := shdrtab }

/-- `ExecutableWriter::addFiles`: the input files after the runtime file is put in front and
the target had its turn. -/
def addFiles (env : Env) (w : Writer) (inputFiles : List CRuntimeFile) :
    Writer × List CRuntimeFile :=
  let w := addDefaultAtoms env w
  (w, env.targetAddFiles (w.runtimeFile :: inputFiles))

/-- `ExecutableWriter::createDefaultSections`. -/
def createDefaultSections (env : Env) (w : Writer) : Writer :=
  let w := { w with header := newHeader env }
  let layout := { w.layout with
    programHeader := { entries := [], fileOffset := 0, entsize := phdrEntSize env } }
  let w := { w with symtab := [], shdrtab := { entries := [] } }
  let layout := layout.addSection (newChunk ".symtab" Kind.K_ELFSection)
  let layout := layout.addSection (newChunk ".strtab" Kind.K_ELFSection)
  let layout := layout.addSection (newChunk ".shstrtab" Kind.K_ELFSection)
  let layout := layout.addSection (newChunk "shdr" Kind.K_SectionHeader)
  let w := { w with layout := layout }
  let w :=
    if env.isDynamic then
      let w := { w with
        dynamicTable := []
        dynamicStringTable := { strings := [], dedup := true }
        dynamicSymbolTable := [] }
      let layout := w.layout.addSection (newChunk ".dynamic" Kind.K_ELFSection)
      let layout := layout.addSection (newChunk ".dynstr" Kind.K_ELFSection)
      let layout := layout.addSection (newChunk ".dynsym" Kind.K_ELFSection)
      let layout := layout.addSection (newChunk ".interp" Kind.K_ELFSection)
      let layout := layout.addSection (newChunk ".hash" Kind.K_ELFSection)
      { w with layout := layout }
    else w
  { w with layout := env.targetCreateDefaultSections w.layout }

/-- A call `_layout->f()` of the layout engine. -/
def Writer.callLayout (w : Writer) (f : Layout → Layout) : Writer :=
  { w with layout := f w.layout }

/-- The statements of `writeFile` that fill in `_Header` before it is written. -/
def populateHeader (env : Env) (w : Writer) : Header :=
  let h := w.header
  let h := h.set_e_ident EI_CLASS (if env.is64Bits then ELFCLASS64 else ELFCLASS32)
  let h := h.set_e_ident EI_DATA (if env.isLittleEndian then ELFDATA2LSB else ELFDATA2MSB)
  let h := { h with e_type := env.outputType }
  let h := { h with e_machine := env.outputMachine }
  let h :=
    if !env.doesOverrideHeader then
      let h := h.set_e_ident EI_VERSION 1
      let h := h.set_e_ident EI_OSABI 0
      { h with e_version := 1 }
    else
      -- override the contents of the ELF Header
      env.setHeaderInfo h
  let h := { h with e_phoff := w.layout.programHeader.fileOffset }
  let h := { h with e_shoff := w.layout.shdrtabFileOffset }
  let h := { h with e_phentsize := w.layout.programHeader.entsize }
  let h := { h with e_phnum := w.layout.programHeader.entries.length }
  let h := { h with e_shentsize := shdrEntSize env }
  let h := { h with e_shnum := env.shdrtabNumHeaders w.shdrtab }
  let h := { h with e_shstrndx := w.layout.shstrtabOrdinal }
  let virtualAddr := (env.findAtomAddrByName w.layout env.entry).getD 0
  { h with e_entry := virtualAddr }

/-- The statements of `writeFile` up to the call of `finalizeDefaultAtomValues`. -/
def writeFileLayout (env : Env) (file : File) (w : Writer) : Writer :=
  let w := buildChunks env file w
  let w := w.callLayout env.doPreFlight
  let w := createDefaultSections env w
  let w :=
    if env.isDynamic then buildDynamicSymbolTable env file (createDefaultDynamicEntries w)
    else w
  let w := w.callLayout env.assignSectionsToSegments
  let w := w.callLayout env.assignFileOffsets
  w.callLayout env.assignVirtualAddress

/-- The statements of `writeFile` from `buildAtomToAddressMap` to the last section assigned
to the section-header table. -/
def writeFileTables (env : Env) (file : File) (w : Writer) : Writer :=
  let w := buildAtomToAddressMap w
  let w := buildStaticSymbolTable file w
  let w := w.callLayout env.layoutFinalize
  let w := buildSectionHeaderTable w
  assignSectionsWithNoSegments env w

/-- The statements of `writeFile` from the creation of the output buffer: the header is
filled in, header, program header and sections are written, the buffer is committed. -/
def writeFileEmit (env : Env) (path : String) (w : Writer) : Outcome (Writer × Image) :=
  let totalSize := u64 (w.layout.shdrtabFileOffset + env.shdrtabFileSize w.shdrtab)
  let ec := env.bufferCreate path totalSize
  if ec ≠ 0 then .error (.io ec)
  else
    let h := populateHeader env w
    let image : Image :=
      { size := totalSize, header := h, programHeader := w.layout.programHeader
        sections := w.layout.sections }
    let ec := env.bufferCommit image
    if ec ≠ 0 then .error (.io ec) else .ok ({ w with header := h }, image)

/-- `ExecutableWriter::writeFile`: the writer's final state and the image put into the buffer,
or the error that stopped the run. -/
def writeFile (env : Env) (file : File) (path : String) (w : Writer) :
    Outcome (Writer × Image) := do
  let w := writeFileLayout env file w
  -- Finalize the default value of symbols that the linker adds
  let w ← finalizeDefaultAtomValues env w
  let w := writeFileTables env file w
  let w ← if env.isDynamic then updateDynamicTable w else pure w
  writeFileEmit env path w

/-- `StringTable::addString` for each name in turn: the table at the end and the offsets
returned, in order. -/
def internAll : StringTable → List String → StringTable × List Nat
  | t, [] => (t, [])
  | t, n :: rest =>
    let r := t.addString n
    let q := internAll r.1 rest
    (q.1, r.2 :: q.2)

/-- The keys of a `StringSet` after the given insertions, in the order of first insertion. -/
def insertAll (s : List String) (keys : List String) : List String :=
  keys.foldl StringSet.insert s

/-- The five tags `createDefaultDynamicEntries` reserves a slot for. -/
def defaultDynamicTags : List Nat := [DT_HASH, DT_STRTAB, DT_SYMTAB, DT_STRSZ, DT_SYMENT]

/-- The slots `createDefaultDynamicEntries` recorded, and the table, are in `b` as in `a`. -/
def SameDynamicTable (a b : Writer) : Prop :=
  b.dynamicTable = a.dynamicTable ∧ b.dt_hash = a.dt_hash ∧ b.dt_strtab = a.dt_strtab ∧
    b.dt_symtab = a.dt_symtab ∧ b.dt_strsz = a.dt_strsz ∧ b.dt_syment = a.dt_syment

/-- A merged section of kind `K_ELFSection` or `K_AtomSection`: one the two loops over
`mergedSections()` do not skip. -/
def MergedSections.isSectionKind (m : MergedSections) : Bool :=
  m.kind = Kind.K_ELFSection || m.kind = Kind.K_AtomSection

/-- The program header has a writable `PT_LOAD` entry. -/
def hasWritableLoad (ph : ProgramHeader) : Bool :=
  ph.entries.any (fun p => p.p_type = PT_LOAD && p.p_flags &&& PF_W ≠ 0)

/-- What every implementation of `findProgramHeader (type, flags, flagsClear)` does: the entry
it returns is one of the table, of the type asked for, with the bits of `flags` set. -/
def FindsMatchingEntry (env : Env) : Prop :=
  ∀ (ph : ProgramHeader) (type flags flagsClear : Nat) (p : Phdr),
    env.findProgramHeader ph type flags flagsClear = some p →
      p ∈ ph.entries ∧ p.p_type = type ∧ p.p_flags &&& flags = flags

/-! ## Concrete inputs -/

/-- A `findProgramHeader` that returns the first entry of the type with every bit of `flags`
set and no bit of `flagsClear` set. -/
def firstMatchingPhdr (ph : ProgramHeader) (type flags flagsClear : Nat) : Option Phdr :=
  ph.entries.find? (fun p =>
    p.p_type = type && p.p_flags &&& flags = flags && p.p_flags &&& flagsClear = 0)

/-- A writer as its constructor leaves it. -/
def newWriter : Writer :=
  { layout :=
      { sections := [], mergedSections := [], absoluteAtoms := []
        programHeader := { entries := [], fileOffset := 0, entsize := 0 }
        shdrtabFileOffset := 0, shstrtabOrdinal := 0
        dynamicSections :=
          { hashVirtualAddr := 0, dynstrVirtualAddr := 0, dynstrMemSize := 0
            dynsymVirtualAddr := 0, dynsymEntSize := 0 } }
    header :=
      { e_ident := [], e_type := 0, e_machine := 0, e_version := 0, e_entry := 0, e_phoff := 0
        e_shoff := 0, e_flags := 0, e_ehsize := 0, e_phentsize := 0, e_phnum := 0
        e_shentsize := 0, e_shnum := 0, e_shstrndx := 0 }
    symtab := [], shdrtab := { entries := [] }
    dynamicTable := [], dynamicSymbolTable := []
    dynamicStringTable := { strings := [], dedup := true }
    soNeeded := []
    dt_hash := 0, dt_strtab := 0, dt_symtab := 0, dt_strsz := 0, dt_syment := 0
    atomToAddressMap := []
    runtimeFile := { undefinedAtoms := [], absoluteAtoms := [] } }

/-- The text segment of the examples: `PT_LOAD`, read and execute. -/
def textSegment : Phdr :=
  { p_type := PT_LOAD, p_flags := PF_R ||| PF_X, p_offset := 0, p_vaddr := 0x400000
    p_filesz := 0x1000, p_memsz := 0x1000 }

/-- The data segment of the examples: `PT_LOAD`, read and write, with 4096 bytes of bss. -/
def dataSegment : Phdr :=
  { p_type := PT_LOAD, p_flags := PF_R ||| PF_W, p_offset := 0x1000, p_vaddr := 0x601000
    p_filesz := 0x10, p_memsz := 0x1010 }

/-- An output section of the examples. -/
def exampleSection (name : String) (hasSegment : Bool) (virtualAddr memSize : Nat) :
    MergedSections :=
  { name := name, kind := Kind.K_ELFSection, hasSegment := hasSegment
    virtualAddr := virtualAddr, memSize := memSize, fileOffset := 0 }

/-- A layout engine for the examples: in one step it places `.text`, a 16-byte `.init_array`,
`.rela.iplt`, `.rela.plt` and the dynamic sections, and makes the given segments. -/
def exampleSegments (segments : List Phdr) (layout : Layout) : Layout :=
  { layout with
    mergedSections :=
      [exampleSection ".text" true 0x400000 8, exampleSection ".init_array" true 0x601000 16,
       exampleSection ".rela.iplt" true 0x400100 24, exampleSection ".rela.plt" true 0x400200 48,
       exampleSection ".symtab" false 0 96]
    programHeader := { layout.programHeader with entries := segments }
    dynamicSections :=
      { hashVirtualAddr := 0x400300, dynstrVirtualAddr := 0x400400, dynstrMemSize := 21
        dynsymVirtualAddr := 0x400500, dynsymEntSize := 24 } }

/-- An environment for the examples: a 64-bit little-endian x86-64 target, debug build, a
target handler that changes nothing, and a layout engine that makes the given segments. -/
def exampleEnv (isDynamic : Bool) (segments : List Phdr) : Env :=
  { is64Bits := true, isLittleEndian := true, isDynamic := isDynamic
    outputType := 2, outputMachine := 62, entry := "_start", ndebug := false
    doesOverrideHeader := false, setHeaderInfo := id
    finalizeSymbolValues := id, targetCreateDefaultSections := id, targetAddFiles := id
    findProgramHeader := firstMatchingPhdr
    addDefinedAtom := fun layout _ => layout
    addAbsoluteAtom := fun layout a =>
      { layout with absoluteAtoms := layout.absoluteAtoms ++ [⟨a, 0, 0⟩] }
    doPreFlight := id
    assignSectionsToSegments := exampleSegments segments
    assignFileOffsets := id, assignVirtualAddress := id, layoutFinalize := id
    assignOffsetsForMiscSections := id
    hasOutputSegment := fun _ => true
    findAtomAddrByName := fun _ _ => none
    stringSetOrder := id
    shdrtabFileSize := fun t => (t.entries.length + 1) * 64
    shdrtabNumHeaders := fun t => t.entries.length + 1
    bufferCreate := fun _ _ => 0
    bufferCommit := fun _ => 0 }

/-- The resolved input of the examples: `main`, the entry symbol `_start`, the absolute atoms
`addDefaultAtoms` injects, and the given shared-library atoms. -/
def exampleFile (sharedLibrary : List SharedLibraryAtom) : File :=
  { defined := [⟨"main"⟩]
    absolute := (addDefaultAtoms (exampleEnv false []) newWriter).runtimeFile.absoluteAtoms
    undefined := [⟨"_start"⟩]
    sharedLibrary := sharedLibrary }

/-- The writer when `finalizeDefaultAtomValues` is called in the run of `writeFile` on the
example input with the given segments. -/
def exampleLaidOut (isDynamic : Bool) (segments : List Phdr) : Writer :=
  writeFileLayout (exampleEnv isDynamic segments) (exampleFile []) newWriter

/-- The writer of `exampleLaidOut` without the absolute atom `__preinit_array_start`. -/
def missingPreinitStart : Writer :=
  let w := exampleLaidOut false [textSegment, dataSegment]
  { w with layout := { w.layout with
      absoluteAtoms := w.layout.absoluteAtoms.filter
        (fun a => a.atom.name ≠ "__preinit_array_start") } }

/-- A target handler that overrides the header and sets `e_machine` to `EM_NONE`. -/
def overridingEnv : Env :=
  { exampleEnv false [textSegment, dataSegment] with
    doesOverrideHeader := true
    setHeaderInfo := fun h => { h with e_machine := 0 } }

/-- Every object of the writer but the layout is in `b` as in `a`. -/
def SameTables (a b : Writer) : Prop :=
  b = { a with layout := b.layout }

/-- The example with three shared-library atoms, two of them from `libm.so.6`. -/
def exampleLibraries : List SharedLibraryAtom :=
  [⟨"printf", "libc.so.6"⟩, ⟨"sin", "libm.so.6"⟩, ⟨"cos", "libm.so.6"⟩]

/-- The writer on which `updateDynamicTable` runs in the dynamic example: the slots are
reserved, the `DT_NEEDED` entries are added, and the layout engine has placed the sections. -/
def exampleBeforeUpdate : Writer :=
  (buildDynamicSymbolTable (exampleEnv true [textSegment, dataSegment])
    (exampleFile exampleLibraries)
    (createDefaultDynamicEntries newWriter)).callLayout
      (exampleSegments [textSegment, dataSegment])

/-! ## Lemmas on lookups and assignments -/

theorem findAbsoluteAtom_assign (l : List AtomLayout) (i v : Nat) (n : String) :
    findAbsoluteAtom (assignVirtualAddr l i v) n = findAbsoluteAtom l n := by
  induction l generalizing i with
  | nil => rfl
  | cons a l ih =>
    cases i with
    | zero => simp [assignVirtualAddr, findAbsoluteAtom]
    | succ i => simp [assignVirtualAddr, findAbsoluteAtom, ih]

theorem atomValueIn_eq_find (l : List AtomLayout) (n : String) :
    atomValueIn l n =
      (findAbsoluteAtom l n).bind (fun i => (l.get? i).map (fun a => a.virtualAddr)) := by
  induction l with
  | nil => rfl
  | cons a l ih =>
    by_cases h : a.atom.name = n
    · simp [atomValueIn, findAbsoluteAtom, h]
    · simp only [atomValueIn, findAbsoluteAtom, h, if_false, ih]
      cases findAbsoluteAtom l n <;> simp

theorem atomValueIn_isSome (l : List AtomLayout) (n : String) :
    (atomValueIn l n).isSome = (findAbsoluteAtom l n).isSome := by
  induction l with
  | nil => rfl
  | cons a l ih =>
    by_cases h : a.atom.name = n
    · simp [atomValueIn, findAbsoluteAtom, h]
    · simp only [atomValueIn, findAbsoluteAtom, h, if_false, ih]
      cases findAbsoluteAtom l n <;> simp

theorem findAbsoluteAtom_isSome_iff (l : List AtomLayout) (n : String) :
    (findAbsoluteAtom l n).isSome ↔ ∃ a ∈ l, a.atom.name = n := by
  induction l with
  | nil => simp [findAbsoluteAtom]
  | cons a l ih =>
    by_cases h : a.atom.name = n
    · simp [findAbsoluteAtom, h]
    · have : (findAbsoluteAtom (a :: l) n).isSome = (findAbsoluteAtom l n).isSome := by
        simp only [findAbsoluteAtom, h, if_false]
        cases findAbsoluteAtom l n <;> simp
      rw [this, ih]
      simp [h]

theorem atomValueIn_assign (l : List AtomLayout) (i v : Nat) (n : String) :
    atomValueIn (assignVirtualAddr l i v) n =
      if findAbsoluteAtom l n = some i then some v else atomValueIn l n := by
  induction l generalizing i with
  | nil => simp [assignVirtualAddr, atomValueIn, findAbsoluteAtom]
  | cons a l ih =>
    by_cases h : a.atom.name = n
    · cases i with
      | zero => simp [assignVirtualAddr, atomValueIn, findAbsoluteAtom, h]
      | succ i => simp [assignVirtualAddr, atomValueIn, findAbsoluteAtom, h]
    · cases i with
      | zero =>
        simp only [assignVirtualAddr, atomValueIn, findAbsoluteAtom, h, if_false]
        cases findAbsoluteAtom l n <;> simp
      | succ i =>
        simp only [assignVirtualAddr, atomValueIn, findAbsoluteAtom, h, if_false, ih]
        cases findAbsoluteAtom l n <;> simp

theorem findAbsoluteAtom_name (l : List AtomLayout) (n : String) (i : Nat)
    (h : findAbsoluteAtom l n = some i) : (l.get? i).map (fun a => a.atom.name) = some n := by
  induction l generalizing i with
  | nil => simp [findAbsoluteAtom] at h
  | cons a l ih =>
    by_cases hn : a.atom.name = n
    · simp [findAbsoluteAtom, hn] at h
      subst h
      simp [hn]
    · simp only [findAbsoluteAtom, hn, if_false] at h
      cases hf : findAbsoluteAtom l n with
      | none => simp [hf] at h
      | some j =>
        simp [hf] at h
        subst h
        simpa using ih j hf

theorem findAbsoluteAtom_inj (l : List AtomLayout) (n m : String) (i : Nat)
    (hn : findAbsoluteAtom l n = some i) (hm : findAbsoluteAtom l m = some i) : n = m := by
  have h1 := findAbsoluteAtom_name l n i hn
  have h2 := findAbsoluteAtom_name l m i hm
  rw [h1] at h2
  exact Option.some.inj h2

theorem Outcome.bind_eq_ok {α β : Type} (x : Outcome α) (f : α → Outcome β) (b : β) :
    x.bind f = .ok b ↔ ∃ a, x = .ok a ∧ f a = .ok b := by
  cases x <;> simp [Outcome.bind]

theorem Outcome.exists_of_isOk {α : Type} (x : Outcome α) (h : x.isOk = true) :
    ∃ a, x = .ok a := by
  cases x with
  | ok a => exact ⟨a, rfl⟩
  | error e => cases h

theorem setVirtualAddr_eq_ok (w w1 : Writer) (it : Option Nat) (v : Nat) :
    setVirtualAddr w it v = .ok w1 ↔
      ∃ i, it = some i ∧
        w1 = { w with layout := { w.layout with
                absoluteAtoms := assignVirtualAddr w.layout.absoluteAtoms i v } } := by
  cases it with
  | none => simp [setVirtualAddr]
  | some i => simp [setVirtualAddr, eq_comm]

theorem setVirtualAddr_find (w w1 : Writer) (it : Option Nat) (v : Nat) (n : String)
    (h : setVirtualAddr w it v = .ok w1) :
    findAbsoluteAtom w1.layout.absoluteAtoms n = findAbsoluteAtom w.layout.absoluteAtoms n := by
  obtain ⟨i, -, rfl⟩ := (setVirtualAddr_eq_ok w w1 it v).1 h
  exact findAbsoluteAtom_assign _ _ _ _

theorem setVirtualAddr_frame (w w1 : Writer) (it : Option Nat) (v : Nat)
    (h : setVirtualAddr w it v = .ok w1) :
    w1.layout.mergedSections = w.layout.mergedSections ∧ w1.layout.programHeader = w.layout.programHeader := by
  obtain ⟨i, -, rfl⟩ := (setVirtualAddr_eq_ok w w1 it v).1 h
  exact ⟨rfl, rfl⟩

theorem atomValue_set_same (w w1 : Writer) (n : String) (v : Nat)
    (h : setVirtualAddr w (findAbsoluteAtom w.layout.absoluteAtoms n) v = .ok w1) :
    atomValue w1 n = some v := by
  obtain ⟨i, hi, rfl⟩ := (setVirtualAddr_eq_ok w w1 _ v).1 h
  simp [atomValue, atomValueIn_assign, hi]

theorem atomValue_set_other (w w1 : Writer) (n m : String) (v : Nat) (hne : n ≠ m)
    (h : setVirtualAddr w (findAbsoluteAtom w.layout.absoluteAtoms m) v = .ok w1) :
    atomValue w1 n = atomValue w n := by
  obtain ⟨i, hi, rfl⟩ := (setVirtualAddr_eq_ok w w1 _ v).1 h
  have : findAbsoluteAtom w.layout.absoluteAtoms n ≠ some i := fun hn =>
    hne (findAbsoluteAtom_inj _ n m i hn hi)
  simp [atomValue, atomValueIn_assign, this]

theorem assignAll_find (ws : List (String × Nat)) (w w1 : Writer) (n : String)
    (h : assignAll w ws = .ok w1) :
    findAbsoluteAtom w1.layout.absoluteAtoms n = findAbsoluteAtom w.layout.absoluteAtoms n := by
  induction ws generalizing w with
  | nil =>
    simp only [assignAll, Outcome.ok.injEq] at h
    rw [h]
  | cons p rest ih =>
    obtain ⟨m, v⟩ := p
    obtain ⟨w2, h2, h3⟩ := (Outcome.bind_eq_ok _ _ _).1 h
    rw [ih w2 h3, setVirtualAddr_find w w2 _ v n h2]

theorem assignAll_frame (ws : List (String × Nat)) (w w1 : Writer)
    (h : assignAll w ws = .ok w1) :
    w1.layout.mergedSections = w.layout.mergedSections ∧ w1.layout.programHeader = w.layout.programHeader := by
  induction ws generalizing w with
  | nil =>
    simp only [assignAll, Outcome.ok.injEq] at h
    rw [h]
    exact ⟨rfl, rfl⟩
  | cons p rest ih =>
    obtain ⟨m, v⟩ := p
    obtain ⟨w2, h2, h3⟩ := (Outcome.bind_eq_ok _ _ _).1 h
    have a := ih w2 h3
    have b := setVirtualAddr_frame w w2 _ v h2
    exact ⟨a.1.trans b.1, a.2.trans b.2⟩

theorem assignAll_other (ws : List (String × Nat)) (w w1 : Writer) (n : String)
    (hn : n ∉ ws.map Prod.fst) (h : assignAll w ws = .ok w1) :
    atomValue w1 n = atomValue w n := by
  induction ws generalizing w with
  | nil =>
    simp only [assignAll, Outcome.ok.injEq] at h
    rw [h]
  | cons p rest ih =>
    obtain ⟨m, v⟩ := p
    obtain ⟨w2, h2, h3⟩ := (Outcome.bind_eq_ok _ _ _).1 h
    simp only [List.map_cons, List.mem_cons, not_or] at hn
    rw [ih w2 hn.2 h3, atomValue_set_other w w2 n m v hn.1 h2]

theorem assignAll_value (ws : List (String × Nat)) (w w1 : Writer)
    (hnd : (ws.map Prod.fst).Nodup) (h : assignAll w ws = .ok w1) :
    ∀ p ∈ ws, atomValue w1 p.1 = some p.2 := by
  induction ws generalizing w with
  | nil => simp
  | cons p rest ih =>
    obtain ⟨m, v⟩ := p
    obtain ⟨w2, h2, h3⟩ := (Outcome.bind_eq_ok _ _ _).1 h
    simp only [List.map_cons, List.nodup_cons] at hnd
    intro q hq
    rcases List.mem_cons.1 hq with rfl | hq
    · rw [assignAll_other rest w2 w1 m hnd.1 h3]
      exact atomValue_set_same w w2 m v h2
    · exact ih w2 hnd.2 h3 q hq

theorem assignAll_append (ws vs : List (String × Nat)) (w : Writer) :
    assignAll w (ws ++ vs) = (assignAll w ws).bind (fun w1 => assignAll w1 vs) := by
  induction ws generalizing w with
  | nil => rfl
  | cons p rest ih =>
    obtain ⟨m, v⟩ := p
    simp only [List.cons_append, assignAll]
    cases setVirtualAddr w (findAbsoluteAtom w.layout.absoluteAtoms m) v with
    | ok w2 => simp [Outcome.bind, ih]
    | error e => rfl

theorem assignAll_ok_of_found (ws : List (String × Nat)) (w : Writer)
    (hf : ∀ p ∈ ws, (findAbsoluteAtom w.layout.absoluteAtoms p.1).isSome) :
    ∃ w1, assignAll w ws = .ok w1 := by
  induction ws generalizing w with
  | nil => exact ⟨w, rfl⟩
  | cons p rest ih =>
    obtain ⟨m, v⟩ := p
    have hm := hf (m, v) (List.mem_cons_self _ _)
    obtain ⟨i, hi⟩ := Option.isSome_iff_exists.1 hm
    have h2 : setVirtualAddr w (findAbsoluteAtom w.layout.absoluteAtoms m) v =
        .ok { w with layout := { w.layout with
                absoluteAtoms := assignVirtualAddr w.layout.absoluteAtoms i v } } := by
      rw [hi]; rfl
    obtain ⟨w1, h1⟩ := ih _ (fun p hp => by
      rw [setVirtualAddr_find w _ _ v p.1 h2]
      exact hf p (List.mem_cons_of_mem _ hp))
    exact ⟨w1, by simp only [assignAll, h2, Outcome.bind, h1]⟩

theorem assignAll_found_of_ok (ws : List (String × Nat)) (w w1 : Writer)
    (h : assignAll w ws = .ok w1) :
    ∀ p ∈ ws, (findAbsoluteAtom w.layout.absoluteAtoms p.1).isSome := by
  induction ws generalizing w with
  | nil => simp
  | cons p rest ih =>
    obtain ⟨m, v⟩ := p
    obtain ⟨w2, h2, h3⟩ := (Outcome.bind_eq_ok _ _ _).1 h
    intro q hq
    rcases List.mem_cons.1 hq with rfl | hq
    · obtain ⟨i, hi, -⟩ := (setVirtualAddr_eq_ok w w2 _ v).1 h2
      simp [hi]
    · rw [← setVirtualAddr_find w w2 _ v q.1 h2]
      exact ih w2 h3 q hq

theorem Outcome.bind_def {α β : Type} (x : Outcome α) (f : α → Outcome β) :
    (x >>= f) = x.bind f := rfl

theorem startEnd_eq_assignAll (w : Writer) (sym sec : String) :
    startEnd w sym sec = assignAll w (startEndWrites w.layout sym sec) := by
  unfold startEnd startEndWrites startEndValues
  cases findOutputSection w.layout sec with
  | none =>
    simp only [assignAll, Outcome.bind_def]
    cases h : setVirtualAddr w (findAbsoluteAtom w.layout.absoluteAtoms (startName sym)) 0 with
    | ok w1 =>
      simp only [Outcome.bind, setVirtualAddr_find w w1 _ _ _ h]
      cases setVirtualAddr w1 (findAbsoluteAtom w.layout.absoluteAtoms (endName sym)) 0 <;> rfl
    | error e => rfl
  | some s =>
    simp only [assignAll, Outcome.bind_def]
    cases h : setVirtualAddr w (findAbsoluteAtom w.layout.absoluteAtoms (startName sym))
        s.virtualAddr with
    | ok w1 =>
      simp only [Outcome.bind, setVirtualAddr_find w w1 _ _ _ h]
      cases setVirtualAddr w1 (findAbsoluteAtom w.layout.absoluteAtoms (endName sym))
        (u64 (s.virtualAddr + s.memSize)) <;> rfl
    | error e => rfl

theorem startEndWrites_congr (l1 l2 : Layout) (h : l1.mergedSections = l2.mergedSections)
    (sym sec : String) : startEndWrites l1 sym sec = startEndWrites l2 sym sec := by
  simp [startEndWrites, startEndValues, findOutputSection, h]

theorem assignAll_append_ok (ws vs : List (String × Nat)) (w w1 w2 : Writer)
    (h1 : assignAll w ws = .ok w1) (h2 : assignAll w1 vs = .ok w2) :
    assignAll w (ws ++ vs) = .ok w2 := by
  rw [assignAll_append, h1]; exact h2

theorem assignAll_append_elim (ws vs : List (String × Nat)) (w w2 : Writer)
    (h : assignAll w (ws ++ vs) = .ok w2) :
    ∃ w1, assignAll w ws = .ok w1 ∧ assignAll w1 vs = .ok w2 := by
  rw [assignAll_append] at h
  exact (Outcome.bind_eq_ok _ _ _).1 h

theorem cAssert_eq_ok (ndebug cond : Bool) (msg : String) (u : Unit) :
    cAssert ndebug cond msg = .ok u ↔ (ndebug = true ∨ cond = true) := by
  cases ndebug <;> cases cond <;> simp [cAssert]

/-- The assignments of the four `startEnd` calls as one run. -/
theorem startEnd_chain (w w4 : Writer) :
    ((startEnd w "preinit_array" ".preinit_array").bind fun w1 =>
      (startEnd w1 "init_array" ".init_array").bind fun w2 =>
        (startEnd w2 "rela_iplt" ".rela.plt").bind fun w3 =>
          startEnd w3 "fini_array" ".fini_array") = .ok w4 ↔
    assignAll w (arrayWrites w.layout) = .ok w4 := by
  unfold arrayWrites
  constructor
  · intro h
    obtain ⟨w1, h1, h⟩ := (Outcome.bind_eq_ok _ _ _).1 h
    obtain ⟨w2, h2, h⟩ := (Outcome.bind_eq_ok _ _ _).1 h
    obtain ⟨w3, h3, h⟩ := (Outcome.bind_eq_ok _ _ _).1 h
    rw [startEnd_eq_assignAll] at h1 h2 h3 h
    have f1 := (assignAll_frame _ _ _ h1).1
    have f2 := (assignAll_frame _ _ _ h2).1
    have f3 := (assignAll_frame _ _ _ h3).1
    rw [startEndWrites_congr w3.layout w.layout (f3.trans (f2.trans f1))] at h
    rw [startEndWrites_congr w2.layout w.layout (f2.trans f1)] at h3
    rw [startEndWrites_congr w1.layout w.layout f1] at h2
    exact assignAll_append_ok _ _ _ _ _ h1
      (assignAll_append_ok _ _ _ _ _ h2 (assignAll_append_ok _ _ _ _ _ h3 h))
  · intro h
    obtain ⟨w1, h1, h⟩ := assignAll_append_elim _ _ _ _ h
    obtain ⟨w2, h2, h⟩ := assignAll_append_elim _ _ _ _ h
    obtain ⟨w3, h3, h⟩ := assignAll_append_elim _ _ _ _ h
    have f1 := (assignAll_frame _ _ _ h1).1
    have f2 := (assignAll_frame _ _ _ h2).1
    have f3 := (assignAll_frame _ _ _ h3).1
    rw [← startEndWrites_congr w3.layout w.layout (f3.trans (f2.trans f1))] at h
    rw [← startEndWrites_congr w2.layout w.layout (f2.trans f1)] at h3
    rw [← startEndWrites_congr w1.layout w.layout f1] at h2
    rw [← startEnd_eq_assignAll] at h1 h2 h3 h
    simp only [h1, h2, h3, h, Outcome.bind]

theorem bss_chain (env : Env) (w w4 w8 : Writer) (phe : Phdr)
    (hf : ∀ n, findAbsoluteAtom w4.layout.absoluteAtoms n =
      findAbsoluteAtom w.layout.absoluteAtoms n) :
    ((setVirtualAddr w4 (findAbsoluteAtom w.layout.absoluteAtoms "__bss_start")
        (phdrAdd env phe.p_vaddr phe.p_filesz)).bind fun w5 =>
      (setVirtualAddr w5 (findAbsoluteAtom w.layout.absoluteAtoms "__bss_end")
          (phdrAdd env phe.p_vaddr phe.p_memsz)).bind fun w6 =>
        (setVirtualAddr w6 (findAbsoluteAtom w.layout.absoluteAtoms "_end")
            (phdrAdd env phe.p_vaddr phe.p_memsz)).bind fun w7 =>
          setVirtualAddr w7 (findAbsoluteAtom w.layout.absoluteAtoms "end")
            (phdrAdd env phe.p_vaddr phe.p_memsz)) = .ok w8 ↔
    assignAll w4 (bssWrites env phe) = .ok w8 := by
  simp only [bssWrites, assignAll]
  rw [← hf "__bss_start"]
  cases h5 : setVirtualAddr w4 (findAbsoluteAtom w4.layout.absoluteAtoms "__bss_start")
      (phdrAdd env phe.p_vaddr phe.p_filesz) with
  | error e => simp [Outcome.bind]
  | ok w5 =>
    have hf5 := fun n => (setVirtualAddr_find w4 w5 _ _ n h5).trans (hf n)
    simp only [Outcome.bind]
    rw [← hf5 "__bss_end"]
    cases h6 : setVirtualAddr w5 (findAbsoluteAtom w5.layout.absoluteAtoms "__bss_end")
        (phdrAdd env phe.p_vaddr phe.p_memsz) with
    | error e => simp
    | ok w6 =>
      have hf6 := fun n => (setVirtualAddr_find w5 w6 _ _ n h6).trans (hf5 n)
      simp only []
      rw [← hf6 "_end"]
      cases h7 : setVirtualAddr w6 (findAbsoluteAtom w6.layout.absoluteAtoms "_end")
          (phdrAdd env phe.p_vaddr phe.p_memsz) with
      | error e => simp
      | ok w7 =>
        have hf7 := fun n => (setVirtualAddr_find w6 w7 _ _ n h7).trans (hf6 n)
        simp only []
        rw [← hf7 "end"]
        cases setVirtualAddr w7 (findAbsoluteAtom w7.layout.absoluteAtoms "end")
          (phdrAdd env phe.p_vaddr phe.p_memsz) <;> simp

theorem finalize_ok_elim (env : Env) (w w' : Writer)
    (h : finalizeDefaultAtomValues env w = .ok w') :
    ∃ phe w8, env.findProgramHeader w.layout.programHeader PT_LOAD PF_W PF_X = some phe ∧
      assignAll w (arrayWrites w.layout ++ bssWrites env phe) = .ok w8 ∧
      w' = { w8 with layout := env.finalizeSymbolValues w8.layout } := by
  unfold finalizeDefaultAtomValues at h
  simp only [Outcome.bind_def] at h
  obtain ⟨w1, h1, h⟩ := (Outcome.bind_eq_ok _ _ _).1 h
  obtain ⟨w2, h2, h⟩ := (Outcome.bind_eq_ok _ _ _).1 h
  obtain ⟨w3, h3, h⟩ := (Outcome.bind_eq_ok _ _ _).1 h
  obtain ⟨w4, h4, h⟩ := (Outcome.bind_eq_ok _ _ _).1 h
  obtain ⟨-, -, h⟩ := (Outcome.bind_eq_ok _ _ _).1 h
  obtain ⟨-, -, h⟩ := (Outcome.bind_eq_ok _ _ _).1 h
  have hA : assignAll w (arrayWrites w.layout) = .ok w4 :=
    (startEnd_chain w w4).1 (by simp only [h1, h2, h3, h4, Outcome.bind])
  have hph := (assignAll_frame _ _ _ hA).2
  rw [hph] at h
  cases hp : env.findProgramHeader w.layout.programHeader PT_LOAD PF_W PF_X with
  | none => simp [hp] at h
  | some phe =>
    simp only [hp] at h
    obtain ⟨w5, h5, h⟩ := (Outcome.bind_eq_ok _ _ _).1 h
    obtain ⟨w6, h6, h⟩ := (Outcome.bind_eq_ok _ _ _).1 h
    obtain ⟨w7, h7, h⟩ := (Outcome.bind_eq_ok _ _ _).1 h
    obtain ⟨w8, h8, h⟩ := (Outcome.bind_eq_ok _ _ _).1 h
    have hB : assignAll w4 (bssWrites env phe) = .ok w8 :=
      (bss_chain env w w4 w8 phe (fun n => assignAll_find _ _ _ n hA)).1
        (by simp only [h5, h6, h7, h8, Outcome.bind])
    refine ⟨phe, w8, rfl, assignAll_append_ok _ _ _ _ _ hA hB, ?_⟩
    simpa [pure] using h.symm

theorem finalize_ok_intro (env : Env) (w w8 : Writer) (phe : Phdr)
    (hp : env.findProgramHeader w.layout.programHeader PT_LOAD PF_W PF_X = some phe)
    (h : assignAll w (arrayWrites w.layout ++ bssWrites env phe) = .ok w8) :
    finalizeDefaultAtomValues env w =
      .ok { w8 with layout := env.finalizeSymbolValues w8.layout } := by
  obtain ⟨w4, hA, hB⟩ := assignAll_append_elim _ _ _ _ h
  have hfind := fun n => assignAll_find _ _ _ n hA
  have hfound := assignAll_found_of_ok _ _ _ hB
  have b1 := hfound ("__bss_start", phdrAdd env phe.p_vaddr phe.p_filesz) (by simp [bssWrites])
  have b2 := hfound ("__bss_end", phdrAdd env phe.p_vaddr phe.p_memsz) (by simp [bssWrites])
  have b3 := hfound ("_end", phdrAdd env phe.p_vaddr phe.p_memsz) (by simp [bssWrites])
  have b4 := hfound ("end", phdrAdd env phe.p_vaddr phe.p_memsz) (by simp [bssWrites])
  simp only [hfind] at b1 b2 b3 b4
  have hC := (startEnd_chain w w4).2 hA
  obtain ⟨w1, h1, hC⟩ := (Outcome.bind_eq_ok _ _ _).1 hC
  obtain ⟨w2, h2, hC⟩ := (Outcome.bind_eq_ok _ _ _).1 hC
  obtain ⟨w3, h3, h4⟩ := (Outcome.bind_eq_ok _ _ _).1 hC
  have hD := (bss_chain env w w4 w8 phe hfind).2 hB
  obtain ⟨w5, h5, hD⟩ := (Outcome.bind_eq_ok _ _ _).1 hD
  obtain ⟨w6, h6, hD⟩ := (Outcome.bind_eq_ok _ _ _).1 hD
  obtain ⟨w7, h7, h8⟩ := (Outcome.bind_eq_ok _ _ _).1 hD
  have hph := (assignAll_frame _ _ _ hA).2
  obtain ⟨i1, e1⟩ := Option.isSome_iff_exists.1 b1
  obtain ⟨i2, e2⟩ := Option.isSome_iff_exists.1 b2
  obtain ⟨i3, e3⟩ := Option.isSome_iff_exists.1 b3
  obtain ⟨i4, e4⟩ := Option.isSome_iff_exists.1 b4
  unfold finalizeDefaultAtomValues
  simp only [e1, e2, e3, e4] at h5 h6 h7 h8
  simp only [Outcome.bind_def, h1, h2, h3, h4, Outcome.bind, hph, hp, e1, e2, e3, e4]
  simp [cAssert, h5, h6, h7, h8, pure]

theorem writes_names (env : Env) (layout : Layout) (phe : Phdr) :
    (arrayWrites layout ++ bssWrites env phe).map Prod.fst =
      [startName "preinit_array", endName "preinit_array",
       startName "init_array", endName "init_array",
       startName "rela_iplt", endName "rela_iplt",
       startName "fini_array", endName "fini_array",
       "__bss_start", "__bss_end", "_end", "end"] := rfl

theorem writes_nodup (env : Env) (layout : Layout) (phe : Phdr) :
    ((arrayWrites layout ++ bssWrites env phe).map Prod.fst).Nodup := by
  rw [writes_names]; decide

theorem writes_mem_lookup (env : Env) (layout : Layout) (phe : Phdr) (n : String) :
    n ∈ (arrayWrites layout ++ bssWrites env phe).map Prod.fst ↔ n ∈ finalizeLookupNames := by
  rw [writes_names]
  simp only [finalizeLookupNames, List.mem_cons, List.mem_singleton, List.not_mem_nil, or_false]
  tauto

theorem finalize_completes (env : Env) (w : Writer) (phe : Phdr)
    (hall : ∀ n ∈ finalizeLookupNames, (findAbsoluteAtom w.layout.absoluteAtoms n).isSome)
    (hp : env.findProgramHeader w.layout.programHeader PT_LOAD PF_W PF_X = some phe) :
    ∃ w', finalizeDefaultAtomValues env w = .ok w' := by
  obtain ⟨w8, h8⟩ := assignAll_ok_of_found (arrayWrites w.layout ++ bssWrites env phe) w
    (fun p hp => hall p.1 ((writes_mem_lookup env w.layout phe p.1).1
      (List.mem_map_of_mem Prod.fst hp)))
  exact ⟨_, finalize_ok_intro env w w8 phe hp h8⟩

theorem finalize_ok_found (env : Env) (w w' : Writer)
    (h : finalizeDefaultAtomValues env w = .ok w') :
    ∀ n ∈ finalizeLookupNames, (findAbsoluteAtom w.layout.absoluteAtoms n).isSome := by
  obtain ⟨phe, w8, -, h8, -⟩ := finalize_ok_elim env w w' h
  intro n hn
  obtain ⟨p, hp, rfl⟩ := List.mem_map.1 ((writes_mem_lookup env w.layout phe n).2 hn)
  exact assignAll_found_of_ok _ _ _ h8 p hp

theorem finalize_value (env : Env) (w w' : Writer) (hhook : HookKeepsDefaults env)
    (h : finalizeDefaultAtomValues env w = .ok w') :
    ∃ phe, env.findProgramHeader w.layout.programHeader PT_LOAD PF_W PF_X = some phe ∧
      ∀ p ∈ arrayWrites w.layout ++ bssWrites env phe, atomValue w' p.1 = some p.2 := by
  obtain ⟨phe, w8, hp, h8, rfl⟩ := finalize_ok_elim env w w' h
  refine ⟨phe, hp, fun p hpm => ?_⟩
  show atomValueIn (env.finalizeSymbolValues w8.layout).absoluteAtoms p.1 = some p.2
  rw [hhook w8.layout p.1 ((writes_mem_lookup env w.layout phe p.1).1 (List.mem_map_of_mem Prod.fst hpm))]
  exact assignAll_value _ w w8 (writes_nodup env w.layout phe) h8 p hpm

theorem phdrAdd_of_lt (env : Env) (a b : Nat)
    (h : a + b < 2 ^ (if env.is64Bits then 64 else 32)) : phdrAdd env a b = a + b :=
  Nat.mod_eq_of_lt h

theorem u64_of_lt (x : Nat) (h : x < 2 ^ 64) : u64 x = x :=
  Nat.mod_eq_of_lt h

/-! ## Linker-defined symbols: `finalizeDefaultAtomValues` -/

/-- C1. In every layout state in which `__bss_start`, `__bss_end`, `_end` and `end` are
present and `findProgramHeader (PT_LOAD, PF_W, PF_X)` locates the program header `S`, with a
target hook that leaves the linker's own atoms alone: whenever `finalizeDefaultAtomValues` has
completed, `__bss_start` is `S.p_vaddr + S.p_filesz` and `__bss_end`, `_end`, `end` are
`S.p_vaddr + S.p_memsz` (sums of the header's words, `phdrAdd`, the plain sums when they fit the
word); and it does complete when the array atoms of the four `startEnd` calls are present as
well. -/
theorem bss_symbols_from_data_segment (env : Env) (w : Writer) (S : Phdr)
    (hatoms : ∀ n ∈ ["__bss_start", "__bss_end", "_end", "end"],
      (findAbsoluteAtom w.layout.absoluteAtoms n).isSome)
    (hS : env.findProgramHeader w.layout.programHeader PT_LOAD PF_W PF_X = some S)
    (hhook : HookKeepsDefaults env) :
    (∀ w', finalizeDefaultAtomValues env w = .ok w' →
      atomValue w' "__bss_start" = some (phdrAdd env S.p_vaddr S.p_filesz) ∧
      atomValue w' "__bss_end" = some (phdrAdd env S.p_vaddr S.p_memsz) ∧
      atomValue w' "_end" = some (phdrAdd env S.p_vaddr S.p_memsz) ∧
      atomValue w' "end" = some (phdrAdd env S.p_vaddr S.p_memsz) ∧
      (S.p_vaddr + S.p_filesz < 2 ^ (if env.is64Bits then 64 else 32) →
        atomValue w' "__bss_start" = some (S.p_vaddr + S.p_filesz)) ∧
      (S.p_vaddr + S.p_memsz < 2 ^ (if env.is64Bits then 64 else 32) →
        atomValue w' "__bss_end" = some (S.p_vaddr + S.p_memsz) ∧
        atomValue w' "_end" = some (S.p_vaddr + S.p_memsz) ∧
        atomValue w' "end" = some (S.p_vaddr + S.p_memsz))) ∧
    ((∀ c ∈ startEndCalls,
        (findAbsoluteAtom w.layout.absoluteAtoms (startName c.1)).isSome ∧
        (findAbsoluteAtom w.layout.absoluteAtoms (endName c.1)).isSome) →
      ∃ w', finalizeDefaultAtomValues env w = .ok w') := by
  constructor
  · intro w' hrun
    obtain ⟨phe, hp, hv⟩ := finalize_value env w w' hhook hrun
    rw [hS] at hp
    cases Option.some.inj hp
    have h1 := hv ("__bss_start", phdrAdd env S.p_vaddr S.p_filesz) (by simp [bssWrites])
    have h2 := hv ("__bss_end", phdrAdd env S.p_vaddr S.p_memsz) (by simp [bssWrites])
    have h3 := hv ("_end", phdrAdd env S.p_vaddr S.p_memsz) (by simp [bssWrites])
    have h4 := hv ("end", phdrAdd env S.p_vaddr S.p_memsz) (by simp [bssWrites])
    refine ⟨h1, h2, h3, h4, fun hlt => ?_, fun hlt => ?_⟩
    · rw [h1, phdrAdd_of_lt env _ _ hlt]
    · rw [h2, h3, h4, phdrAdd_of_lt env _ _ hlt]
      exact ⟨rfl, rfl, rfl⟩
  · intro harr
    refine finalize_completes env w S (fun n hn => ?_) hS
    simp only [finalizeLookupNames, List.mem_cons, List.mem_singleton, List.not_mem_nil,
      or_false] at hn
    have a1 := harr ("preinit_array", ".preinit_array") (by simp [startEndCalls])
    have a2 := harr ("init_array", ".init_array") (by simp [startEndCalls])
    have a3 := harr ("rela_iplt", ".rela.plt") (by simp [startEndCalls])
    have a4 := harr ("fini_array", ".fini_array") (by simp [startEndCalls])
    rcases hn with rfl | rfl | rfl | rfl | rfl | rfl | rfl | rfl | rfl | rfl | rfl | rfl
    · exact hatoms _ (by simp)
    · exact hatoms _ (by simp)
    · exact hatoms _ (by simp)
    · exact hatoms _ (by simp)
    · exact a1.1
    · exact a1.2
    · exact a2.1
    · exact a2.2
    · exact a3.1
    · exact a3.2
    · exact a4.1
    · exact a4.2

/-- Witness of C1: the run on the example with a text and a data segment completes, with
`__bss_start = 0x601000 + 0x10` and `__bss_end = _end = end = 0x601000 + 0x1010`. -/
theorem bss_symbols_from_data_segment_witness :
    ∃ w', finalizeDefaultAtomValues (exampleEnv false [textSegment, dataSegment])
        (exampleLaidOut false [textSegment, dataSegment]) = .ok w' ∧
      atomValue w' "__bss_start" = some 0x601010 ∧ atomValue w' "__bss_end" = some 0x602010 ∧
      atomValue w' "_end" = some 0x602010 ∧ atomValue w' "end" = some 0x602010 := by
  have h := bss_symbols_from_data_segment (exampleEnv false [textSegment, dataSegment])
    (exampleLaidOut false [textSegment, dataSegment]) dataSegment (by decide) (by decide)
    (fun _ _ _ => rfl)
  obtain ⟨w', hw'⟩ := h.2 (by decide)
  obtain ⟨h1, h2, h3, h4, -⟩ := h.1 w' hw'
  exact ⟨w', hw', h1, h2, h3, h4⟩

/-- C2. With a target hook that leaves the linker's own atoms alone, whenever
`finalizeDefaultAtomValues` has completed, for each pair `(sym, section)` of the four `startEnd`
calls: if the layout has an output section named `section`, `__sym_start` is its virtual address
and `__sym_end` its virtual address plus its memory size (a `uint64_t` sum, the plain sum when
it fits); if it has none, both are `0`. The pairs are `(preinit_array, .preinit_array)`,
`(init_array, .init_array)`, `(rela_iplt, .rela.plt)`, `(fini_array, .fini_array)`: the
`__rela_iplt_*` symbols follow the section `.rela.plt`, whatever `.rela.iplt` is. And the call
does complete when the twelve linker-defined atoms are present and the data segment is
found. -/
theorem array_symbols_from_sections (env : Env) (w : Writer) (hhook : HookKeepsDefaults env) :
    (∀ w', finalizeDefaultAtomValues env w = .ok w' →
      (∀ c ∈ [("preinit_array", ".preinit_array"), ("init_array", ".init_array"),
              ("rela_iplt", ".rela.plt"), ("fini_array", ".fini_array")],
        (∀ s, findOutputSection w.layout c.2 = some s →
          atomValue w' ("__" ++ c.1 ++ "_start") = some s.virtualAddr ∧
          atomValue w' ("__" ++ c.1 ++ "_end") = some (u64 (s.virtualAddr + s.memSize)) ∧
          (s.virtualAddr + s.memSize < 2 ^ 64 →
            atomValue w' ("__" ++ c.1 ++ "_end") = some (s.virtualAddr + s.memSize))) ∧
        (findOutputSection w.layout c.2 = none →
          atomValue w' ("__" ++ c.1 ++ "_start") = some 0 ∧
          atomValue w' ("__" ++ c.1 ++ "_end") = some 0)) ∧
      (∀ s, findOutputSection w.layout ".rela.plt" = some s →
        atomValue w' "__rela_iplt_start" = some s.virtualAddr ∧
        atomValue w' "__rela_iplt_end" = some (u64 (s.virtualAddr + s.memSize))) ∧
      (findOutputSection w.layout ".rela.plt" = none →
        atomValue w' "__rela_iplt_start" = some 0 ∧ atomValue w' "__rela_iplt_end" = some 0)) ∧
    ((∀ n ∈ finalizeLookupNames, (findAbsoluteAtom w.layout.absoluteAtoms n).isSome) →
      (∃ S, env.findProgramHeader w.layout.programHeader PT_LOAD PF_W PF_X = some S) →
      ∃ w', finalizeDefaultAtomValues env w = .ok w') := by
  refine ⟨fun w' hrun => ?_, fun hall hS => ?_⟩
  swap
  · obtain ⟨S, hS⟩ := hS
    exact finalize_completes env w S hall hS
  obtain ⟨phe, -, hv⟩ := finalize_value env w w' hhook hrun
  have key : ∀ sym sec : String,
      startEndWrites w.layout sym sec ⊆ arrayWrites w.layout ++ bssWrites env phe →
      (∀ s, findOutputSection w.layout sec = some s →
        atomValue w' ("__" ++ sym ++ "_start") = some s.virtualAddr ∧
        atomValue w' ("__" ++ sym ++ "_end") = some (u64 (s.virtualAddr + s.memSize)) ∧
        (s.virtualAddr + s.memSize < 2 ^ 64 →
          atomValue w' ("__" ++ sym ++ "_end") = some (s.virtualAddr + s.memSize))) ∧
      (findOutputSection w.layout sec = none →
        atomValue w' ("__" ++ sym ++ "_start") = some 0 ∧
        atomValue w' ("__" ++ sym ++ "_end") = some 0) := by
    intro sym sec hsub
    have hs := hv _ (hsub (List.mem_cons_self _ _))
    have he := hv _ (hsub (List.mem_cons_of_mem _ (List.mem_cons_self _ _)))
    simp only [startEndValues, startName, endName] at hs he
    constructor
    · intro s hsec
      simp only [hsec] at hs he
      exact ⟨hs, he, fun hlt => by rw [he, u64_of_lt _ hlt]⟩
    · intro hsec
      simp only [hsec] at hs he
      exact ⟨hs, he⟩
  have sub : ∀ c ∈ [("preinit_array", ".preinit_array"), ("init_array", ".init_array"),
      ("rela_iplt", ".rela.plt"), ("fini_array", ".fini_array")],
      startEndWrites w.layout c.1 c.2 ⊆ arrayWrites w.layout ++ bssWrites env phe := by
    intro c hc p hp
    simp only [List.mem_cons, List.mem_singleton, List.not_mem_nil, or_false] at hc
    rcases hc with rfl | rfl | rfl | rfl <;>
      simp only [arrayWrites, List.mem_append] <;> tauto
  refine ⟨fun c hc => key c.1 c.2 (sub c hc), ?_, ?_⟩
  · intro s hsec
    have h := (key "rela_iplt" ".rela.plt" (sub ("rela_iplt", ".rela.plt") (by simp))).1 s hsec
    exact ⟨h.1, h.2.1⟩
  · intro hsec
    exact (key "rela_iplt" ".rela.plt" (sub ("rela_iplt", ".rela.plt") (by simp))).2 hsec

/-- Witness of C2: on the example, which has a 16-byte `.init_array` at `0x601000`, a
`.rela.plt` at `0x400200` and a `.rela.iplt` at `0x400100`, the run completes with
`__init_array_start = 0x601000`, `__init_array_end = 0x601010`, `__rela_iplt_start = 0x400200`
and `__preinit_array_start = 0`. -/
theorem array_symbols_from_sections_witness :
    ∃ w', finalizeDefaultAtomValues (exampleEnv false [textSegment, dataSegment])
        (exampleLaidOut false [textSegment, dataSegment]) = .ok w' ∧
      atomValue w' "__init_array_start" = some 0x601000 ∧
      atomValue w' "__init_array_end" = some 0x601010 ∧
      atomValue w' "__rela_iplt_start" = some 0x400200 ∧
      atomValue w' "__preinit_array_start" = some 0 := by
  have h := array_symbols_from_sections (exampleEnv false [textSegment, dataSegment])
    (exampleLaidOut false [textSegment, dataSegment]) (fun _ _ _ => rfl)
  obtain ⟨w', hw'⟩ := h.2 (by decide) ⟨dataSegment, by decide⟩
  obtain ⟨hv, hr, -⟩ := h.1 w' hw'
  have hi := (hv ("init_array", ".init_array") (by simp)).1
    (exampleSection ".init_array" true 0x601000 16) (by decide)
  have hp := (hv ("preinit_array", ".preinit_array") (by simp)).2 (by decide)
  exact ⟨w', hw', hi.1, hi.2.1, (hr (exampleSection ".rela.plt" true 0x400200 48)
    (by decide)).1, hp.1⟩

theorem assignAll_error (ws : List (String × Nat)) (w : Writer) (e : WriterError)
    (h : assignAll w ws = .error e) : e = .derefEnd := by
  induction ws generalizing w with
  | nil => simp [assignAll] at h
  | cons p rest ih =>
    obtain ⟨m, v⟩ := p
    simp only [assignAll] at h
    cases hf : findAbsoluteAtom w.layout.absoluteAtoms m with
    | none =>
      simp only [hf, setVirtualAddr, Outcome.bind, Outcome.error.injEq] at h
      exact h.symm
    | some i =>
      simp only [hf, setVirtualAddr, Outcome.bind] at h
      exact ih _ h

theorem startEnd_error (w : Writer) (sym sec : String) (e : WriterError)
    (h : startEnd w sym sec = .error e) : e = .derefEnd := by
  rw [startEnd_eq_assignAll] at h
  exact assignAll_error _ _ _ h

/-- When an atom of one of the four `startEnd` calls is missing, the run ends in the
dereference of `end()` inside `startEnd`, in a debug build as in a release build: no
assertion is reached. -/
theorem finalize_array_atom_missing (env : Env) (w : Writer) (n : String)
    (hn : n ∈ (arrayWrites w.layout).map Prod.fst)
    (hmiss : findAbsoluteAtom w.layout.absoluteAtoms n = none) :
    finalizeDefaultAtomValues env w = .error .derefEnd := by
  unfold finalizeDefaultAtomValues
  simp only [Outcome.bind_def]
  cases h1 : startEnd w "preinit_array" ".preinit_array" with
  | error e => cases startEnd_error _ _ _ _ h1; rfl
  | ok w1 =>
    simp only [Outcome.bind]
    cases h2 : startEnd w1 "init_array" ".init_array" with
    | error e => cases startEnd_error _ _ _ _ h2; rfl
    | ok w2 =>
      simp only []
      cases h3 : startEnd w2 "rela_iplt" ".rela.plt" with
      | error e => cases startEnd_error _ _ _ _ h3; rfl
      | ok w3 =>
        simp only []
        cases h4 : startEnd w3 "fini_array" ".fini_array" with
        | error e => cases startEnd_error _ _ _ _ h4; rfl
        | ok w4 =>
          exfalso
          have hA := (startEnd_chain w w4).1 (by simp only [h1, h2, h3, h4, Outcome.bind])
          obtain ⟨p, hp, rfl⟩ := List.mem_map.1 hn
          have := assignAll_found_of_ok _ _ _ hA p hp
          rw [hmiss] at this
          exact Bool.false_ne_true this

/-- C7, the code at a failing input. The layout of the example has every linker-defined atom
but `__preinit_array_start`, and a data segment. In a debug build `finalizeDefaultAtomValues`
does not stop at an assertion: the first call of `startEnd` assigns through the `end()`
iterator that the lookup of `__preinit_array_start` returned. -/
theorem finalize_missing_preinit_start_derefs_end :
    findAbsoluteAtom missingPreinitStart.layout.absoluteAtoms "__preinit_array_start" = none ∧
    (exampleEnv false [textSegment, dataSegment]).ndebug = false ∧
    finalizeDefaultAtomValues (exampleEnv false [textSegment, dataSegment]) missingPreinitStart =
      .error .derefEnd := by
  refine ⟨by decide, rfl, ?_⟩
  exact finalize_array_atom_missing _ _ "__preinit_array_start" (by decide) (by decide)

/-- C10. `addDefaultAtoms` injects one undefined atom, named by the target's entry symbol, and
the twelve absolute atoms `__bss_start`, `__bss_end`, `_end`, `end` and `__X_start`, `__X_end`
for `X` in `preinit_array`, `init_array`, `rela_iplt`, `fini_array`. The names
`finalizeDefaultAtomValues` looks up are these twelve names: a run completes only if each of
them is located; and when the injected atoms are in the layout and the data segment is found,
the run completes, no other lookup being made, and each injected atom has the value of one of
the twelve assignments. -/
theorem default_atoms_injected_are_those_finalized (env : Env) (w : Writer) :
    (addDefaultAtoms env w).runtimeFile.undefinedAtoms =
      w.runtimeFile.undefinedAtoms ++ [⟨env.entry⟩] ∧
    (addDefaultAtoms env w).runtimeFile.absoluteAtoms =
      w.runtimeFile.absoluteAtoms ++
        ["__bss_start", "__bss_end", "_end", "end",
         "__preinit_array_start", "__preinit_array_end",
         "__init_array_start", "__init_array_end",
         "__rela_iplt_start", "__rela_iplt_end",
         "__fini_array_start", "__fini_array_end"].map Atom.mk ∧
    finalizeLookupNames =
        ["__bss_start", "__bss_end", "_end", "end",
         "__preinit_array_start", "__preinit_array_end",
         "__init_array_start", "__init_array_end",
         "__rela_iplt_start", "__rela_iplt_end",
         "__fini_array_start", "__fini_array_end"] ∧
    finalizeLookupNames.Nodup ∧
    (∀ w1 w', finalizeDefaultAtomValues env w1 = .ok w' →
      ∀ n ∈ finalizeLookupNames, (findAbsoluteAtom w1.layout.absoluteAtoms n).isSome) ∧
    (∀ (w1 : Writer) (S : Phdr),
      (∀ a ∈ (addDefaultAtoms env newWriter).runtimeFile.absoluteAtoms,
        ∃ al ∈ w1.layout.absoluteAtoms, al.atom = a) →
      env.findProgramHeader w1.layout.programHeader PT_LOAD PF_W PF_X = some S →
      HookKeepsDefaults env →
      ∃ w', finalizeDefaultAtomValues env w1 = .ok w' ∧
        ∀ a ∈ (addDefaultAtoms env newWriter).runtimeFile.absoluteAtoms,
          ∃ v, (a.name, v) ∈ arrayWrites w1.layout ++ bssWrites env S ∧
            atomValue w' a.name = some v) := by
  refine ⟨?_, ?_, by decide, by decide, fun w1 w' h => finalize_ok_found env w1 w' h, ?_⟩
  · simp [addDefaultAtoms, CRuntimeFile.addUndefinedAtom, CRuntimeFile.addAbsoluteAtom]
  · simp [addDefaultAtoms, CRuntimeFile.addUndefinedAtom, CRuntimeFile.addAbsoluteAtom]
  · intro w1 S hin hS hhook
    have hall : ∀ n ∈ finalizeLookupNames,
        (findAbsoluteAtom w1.layout.absoluteAtoms n).isSome := by
      intro n hn
      rw [findAbsoluteAtom_isSome_iff]
      obtain ⟨al, hal, he⟩ := hin ⟨n⟩ (by
        simp only [finalizeLookupNames, List.mem_cons, List.mem_singleton, List.not_mem_nil,
          or_false] at hn
        simp only [addDefaultAtoms, CRuntimeFile.addUndefinedAtom, CRuntimeFile.addAbsoluteAtom,
          newWriter, List.nil_append, List.cons_append, List.mem_cons, List.mem_singleton,
          Atom.mk.injEq, List.not_mem_nil, or_false]
        rcases hn with h | h | h | h | h | h | h | h | h | h | h | h <;> subst h <;> decide)
      exact ⟨al, hal, by rw [he]⟩
    obtain ⟨w', hw'⟩ := finalize_completes env w1 S hall hS
    refine ⟨w', hw', fun a ha => ?_⟩
    obtain ⟨phe, hp, hv⟩ := finalize_value env w1 w' hhook hw'
    rw [hS] at hp
    cases Option.some.inj hp
    have hmem : a.name ∈ (arrayWrites w1.layout ++ bssWrites env S).map Prod.fst := by
      rw [writes_mem_lookup]
      simp only [addDefaultAtoms, CRuntimeFile.addUndefinedAtom, CRuntimeFile.addAbsoluteAtom,
        newWriter, List.nil_append, List.cons_append, List.mem_cons, List.mem_singleton,
        List.not_mem_nil, or_false] at ha
      rcases ha with h | h | h | h | h | h | h | h | h | h | h | h <;> subst h <;> decide
    obtain ⟨p, hp, hpn⟩ := List.mem_map.1 hmem
    refine ⟨p.2, ?_, ?_⟩
    · rw [← hpn]; exact hp
    · rw [← hpn]; exact hv p hp

/-! ## Dynamic table: `createDefaultDynamicEntries`, `buildDynamicSymbolTable`,
`updateDynamicTable` -/

theorem offsetIn_cons_ne (y x : String) (l : List String) (base : Nat) (h : y ≠ x) :
    offsetIn (y :: l) x base = offsetIn l x (base + y.utf8ByteSize + 1) := by
  simp [offsetIn, h]

theorem offsetIn_append (l : List String) (s x : String) (base : Nat) :
    offsetIn (l ++ [s]) x base =
      match offsetIn l x base with
      | some o => some o
      | none =>
        if s = x then some (base + (l.map (fun y => y.utf8ByteSize + 1)).sum) else none := by
  induction l generalizing base with
  | nil => simp [offsetIn]
  | cons y l ih =>
    by_cases h : y = x
    · simp [offsetIn, h]
    · rw [List.cons_append, offsetIn_cons_ne _ _ _ _ h, offsetIn_cons_ne _ _ _ _ h, ih]
      cases offsetIn l x (base + y.utf8ByteSize + 1) with
      | some o => rfl
      | none => simp [Nat.add_assoc]

theorem addString_eq (t : StringTable) (s : String) (hd : t.dedup = true) :
    t.addString s =
      match t.offsetOf s with
      | some off => (t, off)
      | none => ({ t with strings := t.strings ++ [s] }, t.size) := by
  simp [StringTable.addString, hd]

theorem addString_dedup (t : StringTable) (s : String) (hd : t.dedup = true) :
    (t.addString s).1.dedup = true ∧
      (t.addString s).1.offsetOf s = some (t.addString s).2 ∧
      ∀ x o, t.offsetOf x = some o → (t.addString s).1.offsetOf x = some o := by
  rw [addString_eq t s hd]
  cases h : t.offsetOf s with
  | some off => exact ⟨hd, h, fun x o hx => hx⟩
  | none =>
    simp only [StringTable.offsetOf] at h ⊢
    refine ⟨hd, ?_, fun x o hx => ?_⟩
    · rw [offsetIn_append, h]
      simp [StringTable.size]
    · rw [offsetIn_append, hx]

theorem internAll_dedup (names : List String) (t : StringTable) (hd : t.dedup = true) :
    (internAll t names).1.dedup = true := by
  induction names generalizing t with
  | nil => exact hd
  | cons n rest ih => exact ih _ (addString_dedup t n hd).1

theorem internAll_stable (names : List String) (t : StringTable) (hd : t.dedup = true)
    (x : String) (o : Nat) (hx : t.offsetOf x = some o) :
    (internAll t names).1.offsetOf x = some o := by
  induction names generalizing t with
  | nil => exact hx
  | cons n rest ih =>
    exact ih _ (addString_dedup t n hd).1 ((addString_dedup t n hd).2.2 x o hx)

theorem internAll_offsets (names : List String) (t : StringTable) (hd : t.dedup = true) :
    ∀ p ∈ names.zip (internAll t names).2, (internAll t names).1.offsetOf p.1 = some p.2 := by
  induction names generalizing t with
  | nil => simp [internAll]
  | cons n rest ih =>
    intro p hp
    simp only [internAll, List.zip_cons_cons, List.mem_cons] at hp
    rcases hp with rfl | hp
    · exact internAll_stable rest _ (addString_dedup t n hd).1 n _ (addString_dedup t n hd).2.1
    · exact ih _ (addString_dedup t n hd).1 p hp

theorem internAll_length (names : List String) (t : StringTable) :
    (internAll t names).2.length = names.length := by
  induction names generalizing t with
  | nil => rfl
  | cons n rest ih => simp [internAll, ih]

theorem addNeeded_eq (names : List String) (t : StringTable) (tbl : List Dyn) :
    addNeeded names t tbl =
      ((internAll t names).1,
        tbl ++ (internAll t names).2.map (fun off => ({ d_tag := DT_NEEDED, d_val := off } : Dyn))) := by
  induction names generalizing t tbl with
  | nil => simp [addNeeded, internAll]
  | cons n rest ih =>
    simp [addNeeded, internAll, ih, DynamicTable.addEntry]

theorem insert_mem (s : List String) (k n : String) :
    n ∈ StringSet.insert s k ↔ n ∈ s ∨ n = k := by
  unfold StringSet.insert
  by_cases h : k ∈ s
  · simp only [h, if_true]
    constructor
    · exact Or.inl
    · rintro (h1 | rfl)
      · exact h1
      · exact h
  · simp [h]

theorem insert_nodup (s : List String) (k : String) (hs : s.Nodup) :
    (StringSet.insert s k).Nodup := by
  unfold StringSet.insert
  by_cases h : k ∈ s
  · simpa [h] using hs
  · simp only [h, if_false]
    exact List.Nodup.append hs (List.nodup_singleton k) (by simpa using h)

theorem insertAll_mem (keys s : List String) (n : String) :
    n ∈ insertAll s keys ↔ n ∈ s ∨ n ∈ keys := by
  induction keys generalizing s with
  | nil => simp [insertAll]
  | cons k rest ih =>
    have := ih (StringSet.insert s k)
    simp only [insertAll, List.foldl_cons] at this ⊢
    rw [this, insert_mem]
    simp only [List.mem_cons]
    tauto

theorem insertAll_nodup (keys s : List String) (hs : s.Nodup) : (insertAll s keys).Nodup := by
  induction keys generalizing s with
  | nil => exact hs
  | cons k rest ih => exact ih _ (insert_nodup s k hs)

/-- The first loop of `buildDynamicSymbolTable`, field by field. -/
theorem sharedLibrary_loop (l : List SharedLibraryAtom) (w : Writer) :
    let w1 := l.foldl
      (fun (w : Writer) (sla : SharedLibraryAtom) =>
        { w with
          dynamicSymbolTable := SymbolTable.addSymbol w.dynamicSymbolTable sla.toAtom SHN_UNDEF 0
          soNeeded := StringSet.insert w.soNeeded sla.loadName })
      w
    w1.dynamicSymbolTable =
        w.dynamicSymbolTable ++ l.map (fun a => ({ atom := a.toAtom, sectionIndex := SHN_UNDEF, addr := 0 } : Sym)) ∧
      w1.soNeeded = insertAll w.soNeeded (l.map (fun a => a.loadName)) ∧
      w1.dynamicTable = w.dynamicTable ∧ w1.dynamicStringTable = w.dynamicStringTable ∧
      w1.dt_hash = w.dt_hash ∧ w1.dt_strtab = w.dt_strtab ∧ w1.dt_symtab = w.dt_symtab ∧
      w1.dt_strsz = w.dt_strsz ∧ w1.dt_syment = w.dt_syment := by
  induction l generalizing w with
  | nil => simp [insertAll]
  | cons a rest ih =>
    have h := ih { w with
      dynamicSymbolTable := SymbolTable.addSymbol w.dynamicSymbolTable a.toAtom SHN_UNDEF 0
      soNeeded := StringSet.insert w.soNeeded a.loadName }
    simp only [List.foldl_cons, List.map_cons] at h ⊢
    obtain ⟨h1, h2, h3, h4, h5, h6, h7, h8, h9⟩ := h
    refine ⟨?_, ?_, h3, h4, h5, h6, h7, h8, h9⟩
    · rw [h1]; simp [SymbolTable.addSymbol]
    · rw [h2]; simp [insertAll]

/-- The writer after `buildDynamicSymbolTable`, field by field; `names` are the keys of
`_soNeeded` in the order of the second loop. -/
theorem buildDynamicSymbolTable_fields (env : Env) (file : File) (w : Writer) :
    (buildDynamicSymbolTable env file w).dynamicSymbolTable =
        w.dynamicSymbolTable ++ file.sharedLibrary.map
          (fun a => ({ atom := a.toAtom, sectionIndex := SHN_UNDEF, addr := 0 } : Sym)) ∧
      (buildDynamicSymbolTable env file w).dynamicTable =
        w.dynamicTable ++
          (internAll w.dynamicStringTable (env.stringSetOrder
            (insertAll w.soNeeded (file.sharedLibrary.map (fun a => a.loadName))))).2.map
            (fun off => ({ d_tag := DT_NEEDED, d_val := off } : Dyn)) ∧
      (buildDynamicSymbolTable env file w).dynamicStringTable =
        (internAll w.dynamicStringTable (env.stringSetOrder
            (insertAll w.soNeeded (file.sharedLibrary.map (fun a => a.loadName))))).1 ∧
      (buildDynamicSymbolTable env file w).dt_hash = w.dt_hash ∧
      (buildDynamicSymbolTable env file w).dt_strtab = w.dt_strtab ∧
      (buildDynamicSymbolTable env file w).dt_symtab = w.dt_symtab ∧
      (buildDynamicSymbolTable env file w).dt_strsz = w.dt_strsz ∧
      (buildDynamicSymbolTable env file w).dt_syment = w.dt_syment := by
  have h := sharedLibrary_loop file.sharedLibrary w
  simp only at h
  obtain ⟨h1, h2, h3, h4, h5, h6, h7, h8, h9⟩ := h
  simp [buildDynamicSymbolTable, addNeeded_eq, h1, h2, h3, h4, h5, h6, h7, h8, h9]

/-- C4. From a writer whose set `_soNeeded` is empty, with a `StringSet` that is iterated in
some order of its keys, `buildDynamicSymbolTable` adds one `SHN_UNDEF` dynamic symbol per
shared-library atom of the file (duplicates included) and appends one `DT_NEEDED` entry per
distinct load-name: for a list `names` of the distinct load-names, the appended entries are
the `DT_NEEDED` entries whose values are the offsets `addString` returned when the names were
interned into `.dynstr` in that order, their number is the number of distinct load-names, and
in a deduplicating `.dynstr` each value is the offset at which the name is stored. -/
theorem needed_entry_per_distinct_load_name (env : Env) (file : File) (w : Writer)
    (hfresh : w.soNeeded = [])
    (horder : ∀ keys, (env.stringSetOrder keys).Perm keys) :
    (buildDynamicSymbolTable env file w).dynamicSymbolTable =
      w.dynamicSymbolTable ++ file.sharedLibrary.map
        (fun a => ({ atom := a.toAtom, sectionIndex := SHN_UNDEF, addr := 0 } : Sym)) ∧
    ∃ names : List String,
      names.Nodup ∧ (∀ n, n ∈ names ↔ ∃ a ∈ file.sharedLibrary, a.loadName = n) ∧
      names.length = (file.sharedLibrary.map (fun a => a.loadName)).toFinset.card ∧
      (buildDynamicSymbolTable env file w).dynamicTable =
        w.dynamicTable ++ (internAll w.dynamicStringTable names).2.map
          (fun off => ({ d_tag := DT_NEEDED, d_val := off } : Dyn)) ∧
      (internAll w.dynamicStringTable names).2.length = names.length ∧
      ((buildDynamicSymbolTable env file w).dynamicTable.map (fun e => e.d_tag)).count DT_NEEDED =
        (w.dynamicTable.map (fun e => e.d_tag)).count DT_NEEDED +
          (file.sharedLibrary.map (fun a => a.loadName)).toFinset.card ∧
      (buildDynamicSymbolTable env file w).dynamicStringTable =
        (internAll w.dynamicStringTable names).1 ∧
      (w.dynamicStringTable.dedup = true →
        ∀ p ∈ names.zip (internAll w.dynamicStringTable names).2,
          (buildDynamicSymbolTable env file w).dynamicStringTable.offsetOf p.1 = some p.2) := by
  obtain ⟨h1, h2, h3, -⟩ := buildDynamicSymbolTable_fields env file w
  refine ⟨h1, env.stringSetOrder (insertAll w.soNeeded
    (file.sharedLibrary.map (fun a => a.loadName))), ?_⟩
  have hperm := horder (insertAll w.soNeeded (file.sharedLibrary.map (fun a => a.loadName)))
  have hnd : (env.stringSetOrder (insertAll w.soNeeded
      (file.sharedLibrary.map (fun a => a.loadName)))).Nodup :=
    hperm.nodup_iff.2 (insertAll_nodup _ _ (by rw [hfresh]; exact List.nodup_nil))
  have hmem : ∀ n, n ∈ env.stringSetOrder (insertAll w.soNeeded
      (file.sharedLibrary.map (fun a => a.loadName))) ↔
      n ∈ file.sharedLibrary.map (fun a => a.loadName) := by
    intro n
    rw [hperm.mem_iff, insertAll_mem, hfresh]
    simp
  have hcard : (env.stringSetOrder (insertAll w.soNeeded
      (file.sharedLibrary.map (fun a => a.loadName)))).length =
      (file.sharedLibrary.map (fun a => a.loadName)).toFinset.card := by
    rw [← List.toFinset_card_of_nodup hnd]
    congr 1
    ext n
    simp only [List.mem_toFinset]
    exact hmem n
  refine ⟨hnd, fun n => ?_, hcard, h2, internAll_length _ _, ?_, h3, fun hd => ?_⟩
  · rw [hmem]
    simp
  · rw [h2, List.map_append, List.count_append, ← hcard, ← internAll_length
      (env.stringSetOrder (insertAll w.soNeeded (file.sharedLibrary.map (fun a => a.loadName))))
      w.dynamicStringTable]
    congr 1
    rw [List.map_map]
    generalize (internAll w.dynamicStringTable _).2 = offs
    induction offs with
    | nil => rfl
    | cons o rest ih => simp [ih]
  · rw [h3]
    exact internAll_offsets _ _ hd

/-- Witness of C4: three shared-library atoms, two of them with the load-name `libm.so.6`,
give three dynamic symbols and two `DT_NEEDED` entries. -/
theorem needed_entry_per_distinct_load_name_witness :
    ((buildDynamicSymbolTable (exampleEnv true [textSegment, dataSegment])
        (exampleFile [⟨"printf", "libc.so.6"⟩, ⟨"sin", "libm.so.6"⟩, ⟨"cos", "libm.so.6"⟩])
        newWriter).dynamicTable.map (fun e => e.d_tag)).count DT_NEEDED = 2 ∧
    (buildDynamicSymbolTable (exampleEnv true [textSegment, dataSegment])
        (exampleFile [⟨"printf", "libc.so.6"⟩, ⟨"sin", "libm.so.6"⟩, ⟨"cos", "libm.so.6"⟩])
        newWriter).dynamicSymbolTable.length = 3 := by
  have h := needed_entry_per_distinct_load_name (exampleEnv true [textSegment, dataSegment])
    (exampleFile [⟨"printf", "libc.so.6"⟩, ⟨"sin", "libm.so.6"⟩, ⟨"cos", "libm.so.6"⟩])
    newWriter rfl (fun keys => List.Perm.refl keys)
  obtain ⟨hs, names, -, -, -, -, -, hc, -⟩ := h
  exact ⟨hc.trans (by decide), by rw [hs]; rfl⟩

theorem createDefaultDynamicEntries_fields (w : Writer) (hempty : w.dynamicTable = []) :
    (createDefaultDynamicEntries w).dynamicTable =
        [⟨DT_HASH, 0⟩, ⟨DT_STRTAB, 0⟩, ⟨DT_SYMTAB, 0⟩, ⟨DT_STRSZ, 0⟩, ⟨DT_SYMENT, 0⟩] ∧
      (createDefaultDynamicEntries w).dt_hash = 0 ∧
      (createDefaultDynamicEntries w).dt_strtab = 1 ∧
      (createDefaultDynamicEntries w).dt_symtab = 2 ∧
      (createDefaultDynamicEntries w).dt_strsz = 3 ∧
      (createDefaultDynamicEntries w).dt_syment = 4 := by
  simp [createDefaultDynamicEntries, DynamicTable.addEntry, hempty]

/-- C3. From a writer with an empty dynamic table, let `createDefaultDynamicEntries` and
`buildDynamicSymbolTable` run, and let `updateDynamicTable` run on a writer `w3` that holds
the dynamic table and the recorded slots as they left them (as the statements of `writeFile`
in between do, which assign addresses and add no entry). Then `updateDynamicTable` completes;
each of `DT_HASH`,
`DT_STRTAB`, `DT_SYMTAB`, `DT_STRSZ`, `DT_SYMENT` is the tag of exactly one entry, whose value
is the virtual address of `.hash`, of `.dynstr`, of `.dynsym`, the size of `.dynstr` and the
entry size of `.dynsym`; and the table keeps its tags, and every entry with another tag
(`DT_NEEDED`) keeps its value. -/
theorem reserved_dynamic_entries_patched (env : Env) (file : File) (w0 w3 : Writer)
    (hempty : w0.dynamicTable = [])
    (hkept : SameDynamicTable
      (buildDynamicSymbolTable env file (createDefaultDynamicEntries w0)) w3) :
    ∃ w4, updateDynamicTable w3 = .ok w4 ∧
      (∀ tag ∈ defaultDynamicTags, (w4.dynamicTable.map (fun e => e.d_tag)).count tag = 1) ∧
      (∀ e ∈ w4.dynamicTable,
        (e.d_tag = DT_HASH → e.d_val = w3.layout.dynamicSections.hashVirtualAddr) ∧
        (e.d_tag = DT_STRTAB → e.d_val = w3.layout.dynamicSections.dynstrVirtualAddr) ∧
        (e.d_tag = DT_SYMTAB → e.d_val = w3.layout.dynamicSections.dynsymVirtualAddr) ∧
        (e.d_tag = DT_STRSZ → e.d_val = w3.layout.dynamicSections.dynstrMemSize) ∧
        (e.d_tag = DT_SYMENT → e.d_val = w3.layout.dynamicSections.dynsymEntSize)) ∧
      w4.dynamicTable.map (fun e => e.d_tag) = w3.dynamicTable.map (fun e => e.d_tag) ∧
      (∀ i e, w3.dynamicTable.get? i = some e → e.d_tag ∉ defaultDynamicTags →
        w4.dynamicTable.get? i = some e) := by
  obtain ⟨c1, c2, c3, c4, c5, c6⟩ := createDefaultDynamicEntries_fields w0 hempty
  obtain ⟨-, b2, -, b4, b5, b6, b7, b8⟩ :=
    buildDynamicSymbolTable_fields env file (createDefaultDynamicEntries w0)
  obtain ⟨k1, k2, k3, k4, k5, k6⟩ := hkept
  rw [b2, c1] at k1
  rw [b4, c2] at k2
  rw [b5, c3] at k3
  rw [b6, c4] at k4
  rw [b7, c5] at k5
  rw [b8, c6] at k6
  generalize (internAll (createDefaultDynamicEntries w0).dynamicStringTable _).2 = offs at k1
  have hupd : updateDynamicTable w3 = .ok { w3 with dynamicTable :=
      [⟨DT_HASH, w3.layout.dynamicSections.hashVirtualAddr⟩,
       ⟨DT_STRTAB, w3.layout.dynamicSections.dynstrVirtualAddr⟩,
       ⟨DT_SYMTAB, w3.layout.dynamicSections.dynsymVirtualAddr⟩,
       ⟨DT_STRSZ, w3.layout.dynamicSections.dynstrMemSize⟩,
       ⟨DT_SYMENT, w3.layout.dynamicSections.dynsymEntSize⟩] ++
        (List.map (fun off => ({ d_tag := DT_NEEDED, d_val := off } : Dyn)) offs) } := by
    simp [updateDynamicTable, k1, k2, k3, k4, k5, k6, patchEntry, DynamicTable.patch,
      Outcome.bind_def, Outcome.bind, pure]
  have hneeded : ∀ tag ∈ defaultDynamicTags,
      ((offs.map (fun off => ({ d_tag := DT_NEEDED, d_val := off } : Dyn))).map
        (fun e => e.d_tag)).count tag = 0 := by
    intro tag htag
    rw [List.count_eq_zero]
    intro hmem
    simp only [List.map_map, List.mem_map, Function.comp] at hmem
    obtain ⟨o, -, ho⟩ := hmem
    subst ho
    revert htag
    decide
  refine ⟨_, hupd, ?_, ?_, ?_, ?_⟩
  · intro tag htag
    simp only [List.map_append, List.count_append, hneeded tag htag, List.map_cons,
      List.map_nil, Nat.add_zero]
    revert htag tag
    decide
  · intro e he
    simp only [List.mem_append, List.mem_cons, List.mem_singleton, List.not_mem_nil, or_false,
      List.mem_map] at he
    rcases he with (rfl | rfl | rfl | rfl | rfl) | ⟨o, -, rfl⟩ <;>
      simp [DT_HASH, DT_STRTAB, DT_SYMTAB, DT_STRSZ, DT_SYMENT, DT_NEEDED]
  · rw [k1]
    simp
  · intro i e hi htag
    rw [k1] at hi
    match i, hi with
    | 0, hi => simp at hi; subst hi; exact absurd (by decide) htag
    | 1, hi => simp at hi; subst hi; exact absurd (by decide) htag
    | 2, hi => simp at hi; subst hi; exact absurd (by decide) htag
    | 3, hi => simp at hi; subst hi; exact absurd (by decide) htag
    | 4, hi => simp at hi; subst hi; exact absurd (by decide) htag
    | i + 5, hi => simpa using hi

/-- Witness of C3: in the dynamic example `updateDynamicTable` completes, `DT_SYMENT` is the
tag of one entry, and its value is the entry size 24 of `.dynsym`. -/
theorem reserved_dynamic_entries_patched_witness :
    ∃ w4, updateDynamicTable exampleBeforeUpdate = .ok w4 ∧
      (w4.dynamicTable.map (fun e => e.d_tag)).count DT_SYMENT = 1 ∧
      ∀ e ∈ w4.dynamicTable, e.d_tag = DT_SYMENT → e.d_val = 24 := by
  obtain ⟨w4, h, hc, hv, -⟩ := reserved_dynamic_entries_patched
    (exampleEnv true [textSegment, dataSegment]) (exampleFile exampleLibraries)
    newWriter exampleBeforeUpdate rfl ⟨rfl, rfl, rfl, rfl, rfl, rfl⟩
  exact ⟨w4, h, hc DT_SYMENT (by decide), fun e he ht => (hv e he).2.2.2.2 ht⟩

/-! ## Frame: what the steps of `writeFile` leave alone -/

theorem SameTables.refl (a : Writer) : SameTables a a := rfl

theorem SameTables.trans {a b c : Writer} (h1 : SameTables a b) (h2 : SameTables b c) :
    SameTables a c := by
  unfold SameTables at *
  rw [h2, h1]

theorem SameTables.header {a b : Writer} (h : SameTables a b) : b.header = a.header := by
  unfold SameTables at h
  rw [h]

theorem SameTables.shdrtab {a b : Writer} (h : SameTables a b) : b.shdrtab = a.shdrtab := by
  unfold SameTables at h
  rw [h]

theorem SameTables.sameDynamicTable {a b : Writer} (h : SameTables a b) :
    SameDynamicTable a b := by
  unfold SameTables at h
  unfold SameDynamicTable
  rw [h]
  exact ⟨rfl, rfl, rfl, rfl, rfl, rfl⟩

theorem callLayout_sameTables (w : Writer) (f : Layout → Layout) :
    SameTables w (w.callLayout f) := rfl

theorem setVirtualAddr_sameTables (w w1 : Writer) (it : Option Nat) (v : Nat)
    (h : setVirtualAddr w it v = .ok w1) : SameTables w w1 := by
  obtain ⟨i, -, rfl⟩ := (setVirtualAddr_eq_ok w w1 it v).1 h
  rfl

theorem assignAll_sameTables (ws : List (String × Nat)) (w w1 : Writer)
    (h : assignAll w ws = .ok w1) : SameTables w w1 := by
  induction ws generalizing w with
  | nil =>
    simp only [assignAll, Outcome.ok.injEq] at h
    rw [h]
    exact SameTables.refl _
  | cons p rest ih =>
    obtain ⟨m, v⟩ := p
    obtain ⟨w2, h2, h3⟩ := (Outcome.bind_eq_ok _ _ _).1 h
    exact (setVirtualAddr_sameTables w w2 _ v h2).trans (ih w2 h3)

theorem finalize_sameTables (env : Env) (w w' : Writer)
    (h : finalizeDefaultAtomValues env w = .ok w') : SameTables w w' := by
  obtain ⟨phe, w8, -, h8, rfl⟩ := finalize_ok_elim env w w' h
  exact (assignAll_sameTables _ _ _ h8).trans rfl

/-- In a run of `writeFile`, the statements between `buildDynamicSymbolTable` and
`updateDynamicTable` leave the dynamic table and the recorded slots as they are. -/
theorem writeFile_keeps_dynamic_table (env : Env) (file : File) (w2 w' : Writer)
    (h : finalizeDefaultAtomValues env
      (((w2.callLayout env.assignSectionsToSegments).callLayout
        env.assignFileOffsets).callLayout env.assignVirtualAddress) = .ok w') :
    SameDynamicTable w2 (writeFileTables env file w') := by
  have hs : SameTables w2 w' :=
    (((callLayout_sameTables w2 _).trans (callLayout_sameTables _ _)).trans
      (callLayout_sameTables _ _)).trans (finalize_sameTables env _ w' h)
  exact hs.sameDynamicTable

/-- The runs of `finalizeDefaultAtomValues` that complete: the twelve lookups succeed and the
data segment is found. -/
theorem finalize_completes_iff (env : Env) (w : Writer) :
    (∃ w', finalizeDefaultAtomValues env w = .ok w') ↔
      (∀ n ∈ finalizeLookupNames, (findAbsoluteAtom w.layout.absoluteAtoms n).isSome) ∧
      ∃ phe, env.findProgramHeader w.layout.programHeader PT_LOAD PF_W PF_X = some phe := by
  constructor
  · rintro ⟨w', h⟩
    obtain ⟨phe, -, hp, -⟩ := finalize_ok_elim env w w' h
    exact ⟨finalize_ok_found env w w' h, phe, hp⟩
  · rintro ⟨hall, phe, hp⟩
    exact finalize_completes env w phe hall hp

theorem sharedLibrary_loop_header (l : List SharedLibraryAtom) (w : Writer) :
    (l.foldl
      (fun (w : Writer) (sla : SharedLibraryAtom) =>
        { w with
          dynamicSymbolTable := SymbolTable.addSymbol w.dynamicSymbolTable sla.toAtom SHN_UNDEF 0
          soNeeded := StringSet.insert w.soNeeded sla.loadName })
      w).header = w.header := by
  induction l generalizing w with
  | nil => rfl
  | cons a rest ih => rw [List.foldl_cons, ih]

theorem buildDynamicSymbolTable_header (env : Env) (file : File) (w : Writer) :
    (buildDynamicSymbolTable env file w).header = w.header := by
  simp only [buildDynamicSymbolTable]
  exact sharedLibrary_loop_header file.sharedLibrary w

theorem createDefaultSections_header (env : Env) (w : Writer) :
    (createDefaultSections env w).header = newHeader env := by
  unfold createDefaultSections
  by_cases h : env.isDynamic = true <;> simp [h]

theorem writeFileLayout_header (env : Env) (file : File) (w : Writer) :
    (writeFileLayout env file w).header = newHeader env := by
  unfold writeFileLayout
  simp only [Writer.callLayout]
  by_cases h : env.isDynamic = true
  · simp only [h, if_true]
    rw [buildDynamicSymbolTable_header]
    exact createDefaultSections_header env _
  · simp only [h, if_false]
    exact createDefaultSections_header env _

theorem writeFileTables_header (env : Env) (file : File) (w : Writer) :
    (writeFileTables env file w).header = w.header := rfl

theorem updateDynamicTable_header (w w' : Writer) (h : updateDynamicTable w = .ok w') :
    w'.header = w.header := by
  unfold updateDynamicTable at h
  simp only [Outcome.bind_def] at h
  obtain ⟨t1, -, h⟩ := (Outcome.bind_eq_ok _ _ _).1 h
  obtain ⟨t2, -, h⟩ := (Outcome.bind_eq_ok _ _ _).1 h
  obtain ⟨t3, -, h⟩ := (Outcome.bind_eq_ok _ _ _).1 h
  obtain ⟨t4, -, h⟩ := (Outcome.bind_eq_ok _ _ _).1 h
  obtain ⟨t5, -, h⟩ := (Outcome.bind_eq_ok _ _ _).1 h
  simp only [pure, Outcome.ok.injEq] at h
  rw [← h]

/-- A completed run of `writeFile`: the run of `finalizeDefaultAtomValues` completed, and the
image holds the header `populateHeader` fills in from the header the constructor made. -/
theorem writeFile_ok_elim (env : Env) (file : File) (path : String) (w w' : Writer)
    (image : Image) (h : writeFile env file path w = .ok (w', image)) :
    (∃ w2, finalizeDefaultAtomValues env (writeFileLayout env file w) = .ok w2) ∧
    ∃ w4, w4.header = newHeader env ∧ image.header = populateHeader env w4 := by
  unfold writeFile at h
  simp only [Outcome.bind_def] at h
  obtain ⟨w2, h2, h⟩ := (Outcome.bind_eq_ok _ _ _).1 h
  have e2 : w2.header = newHeader env :=
    ((finalize_sameTables env _ w2 h2).header).trans (writeFileLayout_header env file w)
  have key : ∃ w4, w4.header = newHeader env ∧ writeFileEmit env path w4 = .ok (w', image) := by
    by_cases hd : env.isDynamic = true
    · simp only [hd, if_true] at h
      obtain ⟨w4, h4, h⟩ := (Outcome.bind_eq_ok _ _ _).1 h
      exact ⟨w4, by rw [updateDynamicTable_header _ w4 h4, writeFileTables_header, e2], h⟩
    · simp only [hd, if_false, pure, Outcome.bind] at h
      exact ⟨writeFileTables env file w2, by rw [writeFileTables_header, e2], h⟩
  obtain ⟨w4, e4, h⟩ := key
  refine ⟨⟨w2, h2⟩, w4, e4, ?_⟩
  unfold writeFileEmit at h
  simp only at h
  split at h
  · cases h
  · split at h
    · cases h
    · simp only [Outcome.ok.injEq, Prod.mk.injEq] at h
      rw [← h.2]

/-! ## The ELF header `writeFile` emits -/

/-- C5, as the code has it. In every completed run of `writeFile`: when the target hook does
not declare that it overrides the header, the emitted header has the class, the data encoding
and the machine of the target info, `EI_VERSION = 1`, `EI_OSABI = 0` and `e_version = 1`; when
the hook declares that it overrides the header, `setHeaderInfo` is handed a header `h0` with
that class, data encoding and machine, and the identification bytes, the machine and the
version emitted are those of the header it returns. -/
theorem emitted_header_follows_target_info (env : Env) (file : File) (path : String)
    (w w' : Writer) (image : Image) (hrun : writeFile env file path w = .ok (w', image)) :
    (env.doesOverrideHeader = false →
      image.header.e_ident[EI_CLASS]? = some (if env.is64Bits then ELFCLASS64 else ELFCLASS32) ∧
      image.header.e_ident[EI_DATA]? =
        some (if env.isLittleEndian then ELFDATA2LSB else ELFDATA2MSB) ∧
      image.header.e_machine = env.outputMachine ∧
      image.header.e_ident[EI_VERSION]? = some 1 ∧
      image.header.e_ident[EI_OSABI]? = some 0 ∧
      image.header.e_version = 1) ∧
    (env.doesOverrideHeader = true →
      ∃ h0 : Header,
        h0.e_ident[EI_CLASS]? = some (if env.is64Bits then ELFCLASS64 else ELFCLASS32) ∧
        h0.e_ident[EI_DATA]? = some (if env.isLittleEndian then ELFDATA2LSB else ELFDATA2MSB) ∧
        h0.e_machine = env.outputMachine ∧
        image.header.e_ident = (env.setHeaderInfo h0).e_ident ∧
        image.header.e_machine = (env.setHeaderInfo h0).e_machine ∧
        image.header.e_version = (env.setHeaderInfo h0).e_version) := by
  obtain ⟨-, w4, e4, himg⟩ := writeFile_ok_elim env file path w w' image hrun
  rw [himg]
  constructor
  · intro ho
    simp [populateHeader, e4, ho, newHeader, Header.set_e_ident, EI_CLASS, EI_DATA, EI_VERSION,
      EI_OSABI]
  · intro ho
    refine ⟨{ ((newHeader env).set_e_ident EI_CLASS
        (if env.is64Bits then ELFCLASS64 else ELFCLASS32)).set_e_ident EI_DATA
        (if env.isLittleEndian then ELFDATA2LSB else ELFDATA2MSB) with
        e_type := env.outputType, e_machine := env.outputMachine }, ?_, ?_, rfl, ?_, ?_, ?_⟩
    · simp [newHeader, Header.set_e_ident, EI_CLASS, EI_DATA]
    · simp [newHeader, Header.set_e_ident, EI_CLASS, EI_DATA]
    · simp [populateHeader, e4, ho]
    · simp [populateHeader, e4, ho]
    · simp [populateHeader, e4, ho]

/-- Witness of C5 as amended: the static example with a text and a data segment is written,
and its header is a 64-bit (`ELFCLASS64 = 2`) header for the machine 62. -/
theorem emitted_header_follows_target_info_witness :
    ∃ w' image, writeFile (exampleEnv false [textSegment, dataSegment]) (exampleFile [])
        "a.out" newWriter = .ok (w', image) ∧
      image.header.e_ident[EI_CLASS]? = some 2 ∧ image.header.e_machine = 62 := by
  have hrun : ∃ out, writeFile (exampleEnv false [textSegment, dataSegment]) (exampleFile [])
      "a.out" newWriter = .ok out := Outcome.exists_of_isOk _ (by decide)
  obtain ⟨⟨w', image⟩, h⟩ := hrun
  have hc := (emitted_header_follows_target_info _ _ _ _ w' image h).1 rfl
  exact ⟨w', image, h, hc.1, hc.2.2.1⟩

/-- C5 as stated fails: with a target hook that declares that it overrides the header and
sets `e_machine` to `0`, `writeFile` completes and the emitted header has the machine `0`, while
the target info gives the machine 62. -/
theorem overriding_hook_changes_machine :
    overridingEnv.doesOverrideHeader = true ∧ overridingEnv.outputMachine = 62 ∧
    ∃ w' image, writeFile overridingEnv (exampleFile []) "a.out" newWriter = .ok (w', image) ∧
      image.header.e_machine = 0 ∧ image.header.e_machine ≠ overridingEnv.outputMachine := by
  refine ⟨rfl, rfl, ?_⟩
  have hrun : ∃ out, writeFile overridingEnv (exampleFile []) "a.out" newWriter = .ok out :=
    Outcome.exists_of_isOk _ (by decide)
  obtain ⟨⟨w', image⟩, h⟩ := hrun
  obtain ⟨-, w4, e4, himg⟩ := writeFile_ok_elim _ _ _ _ w' image h
  have hm : image.header.e_machine = 0 := by
    rw [himg]
    simp [populateHeader, overridingEnv]
  exact ⟨w', image, h, hm, by rw [hm]; decide⟩

/-! ## The data segment `finalizeDefaultAtomValues` asks for -/

theorem findProgramHeader_none (env : Env) (ph : ProgramHeader) (hfind : FindsMatchingEntry env)
    (hnone : hasWritableLoad ph = false) :
    env.findProgramHeader ph PT_LOAD PF_W PF_X = none := by
  cases h : env.findProgramHeader ph PT_LOAD PF_W PF_X with
  | none => rfl
  | some p =>
    exfalso
    obtain ⟨hmem, hty, hfl⟩ := hfind ph PT_LOAD PF_W PF_X p h
    have : hasWritableLoad ph = true := by
      unfold hasWritableLoad
      rw [List.any_eq_true]
      refine ⟨p, hmem, ?_⟩
      have hne : p.p_flags &&& PF_W ≠ 0 := by
        rw [hfl]
        decide
      simp [hty, hne]
    rw [hnone] at this
    exact Bool.false_ne_true this

theorem finalize_no_data_segment (env : Env) (w : Writer)
    (hp : env.findProgramHeader w.layout.programHeader PT_LOAD PF_W PF_X = none) :
    (∀ w', finalizeDefaultAtomValues env w ≠ .ok w') ∧
    (env.ndebug = false →
      (∀ n ∈ finalizeLookupNames, (findAbsoluteAtom w.layout.absoluteAtoms n).isSome) →
      finalizeDefaultAtomValues env w =
        .error (.assertion "Can't find a data segment in the program header!")) := by
  constructor
  · intro w' h
    obtain ⟨phe, -, hp', -⟩ := finalize_ok_elim env w w' h
    rw [hp] at hp'
    cases hp'
  · intro hnd hall
    obtain ⟨w4, hA⟩ := assignAll_ok_of_found (arrayWrites w.layout) w (fun p hpm => hall p.1 (by
      have : p.1 ∈ (arrayWrites w.layout ++ bssWrites env ⟨0, 0, 0, 0, 0, 0⟩).map Prod.fst :=
        List.mem_map_of_mem Prod.fst (List.mem_append_left _ hpm)
      exact (writes_mem_lookup env w.layout _ p.1).1 this))
    have hC := (startEnd_chain w w4).2 hA
    obtain ⟨w1, h1, hC⟩ := (Outcome.bind_eq_ok _ _ _).1 hC
    obtain ⟨w2, h2, hC⟩ := (Outcome.bind_eq_ok _ _ _).1 hC
    obtain ⟨w3, h3, h4⟩ := (Outcome.bind_eq_ok _ _ _).1 hC
    have hph := (assignAll_frame _ _ _ hA).2
    obtain ⟨i1, e1⟩ := Option.isSome_iff_exists.1 (hall "__bss_start" (by decide))
    obtain ⟨i2, e2⟩ := Option.isSome_iff_exists.1 (hall "__bss_end" (by decide))
    obtain ⟨i3, e3⟩ := Option.isSome_iff_exists.1 (hall "_end" (by decide))
    obtain ⟨i4, e4⟩ := Option.isSome_iff_exists.1 (hall "end" (by decide))
    unfold finalizeDefaultAtomValues
    simp only [Outcome.bind_def, h1, h2, h3, h4, Outcome.bind, hph, hp, e1, e2, e3, e4]
    simp [cAssert, hnd]

/-- C6, as the code has it. The failure for a missing writable `PT_LOAD` segment does not
depend on whether dynamic output is requested. For every output, static or dynamic, whose
program header holds no writable `PT_LOAD` entry when `writeFile` calls
`finalizeDefaultAtomValues` (with a `findProgramHeader` that returns matching entries of the
table only): the lookup of the data segment fails, `finalizeDefaultAtomValues` does not
complete and `writeFile` does not reach the emission; in a debug build with the twelve
linker-defined atoms present both stop at the assertion
`Can't find a data segment in the program header!`. -/
theorem missing_data_segment_stops_writeFile (env : Env) (file : File) (path : String)
    (w : Writer) (hfind : FindsMatchingEntry env)
    (hnone : hasWritableLoad (writeFileLayout env file w).layout.programHeader = false) :
    env.findProgramHeader (writeFileLayout env file w).layout.programHeader
      PT_LOAD PF_W PF_X = none ∧
    (∀ w2, finalizeDefaultAtomValues env (writeFileLayout env file w) ≠ .ok w2) ∧
    (∀ out, writeFile env file path w ≠ .ok out) ∧
    (env.ndebug = false →
      (∀ n ∈ finalizeLookupNames,
        (findAbsoluteAtom (writeFileLayout env file w).layout.absoluteAtoms n).isSome) →
      finalizeDefaultAtomValues env (writeFileLayout env file w) =
        .error (.assertion "Can't find a data segment in the program header!") ∧
      writeFile env file path w =
        .error (.assertion "Can't find a data segment in the program header!")) := by
  have hp := findProgramHeader_none env _ hfind hnone
  obtain ⟨hno, hassert⟩ := finalize_no_data_segment env _ hp
  refine ⟨hp, hno, ?_, fun hnd hall => ?_⟩
  · rintro ⟨w', image⟩ h
    obtain ⟨⟨w2, h2⟩, -⟩ := writeFile_ok_elim env file path w w' image h
    exact hno w2 h2
  · have hf := hassert hnd hall
    refine ⟨hf, ?_⟩
    unfold writeFile
    simp only [Outcome.bind_def, hf, Outcome.bind]

theorem firstMatchingPhdr_finds (env : Env) (h : env.findProgramHeader = firstMatchingPhdr) :
    FindsMatchingEntry env := by
  intro ph type flags flagsClear p hp
  rw [h] at hp
  unfold firstMatchingPhdr at hp
  have hm := List.mem_of_find?_eq_some hp
  have hs := List.find?_some hp
  simp only [Bool.and_eq_true, decide_eq_true_eq] at hs
  exact ⟨hm, hs.1.1, hs.1.2⟩

/-- Witness of C6 as amended: the static example whose only segment is the text segment stops
at the assertion on the data segment, in `finalizeDefaultAtomValues` and so in `writeFile`. -/
theorem missing_data_segment_stops_writeFile_witness :
    (exampleEnv false [textSegment]).isDynamic = false ∧
    writeFile (exampleEnv false [textSegment]) (exampleFile []) "a.out" newWriter =
      .error (.assertion "Can't find a data segment in the program header!") := by
  have h := missing_data_segment_stops_writeFile (exampleEnv false [textSegment])
    (exampleFile []) "a.out" newWriter (firstMatchingPhdr_finds _ rfl) (by decide)
  exact ⟨rfl, (h.2.2.2 rfl (by decide)).2⟩

/-- C6 as stated fails. Static output, one `PT_LOAD` segment (read and execute), every
linker-defined atom present: `finalizeDefaultAtomValues` fails at the assertion on the data
segment and `writeFile` returns no image. -/
theorem static_output_without_data_segment_fails :
    (exampleEnv false [textSegment]).isDynamic = false ∧
    (exampleLaidOut false [textSegment]).layout.programHeader.entries = [textSegment] ∧
    hasWritableLoad (exampleLaidOut false [textSegment]).layout.programHeader = false ∧
    finalizeDefaultAtomValues (exampleEnv false [textSegment])
        (exampleLaidOut false [textSegment]) =
      .error (.assertion "Can't find a data segment in the program header!") ∧
    (writeFile (exampleEnv false [textSegment]) (exampleFile []) "a.out" newWriter).isOk =
      false := by
  decide

/-! ## Symbol table and section-header table -/

theorem foldl_append_singleton {α β : Type} (l : List α) (g : α → β) (t0 : List β) :
    l.foldl (fun t a => t ++ [g a]) t0 = t0 ++ l.map g := by
  induction l generalizing t0 with
  | nil => simp
  | cons a rest ih => simp [ih]

theorem sections_loop (sections : List Chunk) (t0 : List Sym) :
    sections.foldl
      (fun t sec =>
        if sec.isAtomSection then
          sec.atoms.foldl (fun t atom => SymbolTable.addSymbol t atom.atom sec.ordinal
            atom.virtualAddr) t
        else t)
      t0 =
    t0 ++ ((sections.filter Chunk.isAtomSection).map (fun sec =>
      sec.atoms.map (fun atom => Sym.mk atom.atom sec.ordinal atom.virtualAddr))).flatten := by
  induction sections generalizing t0 with
  | nil => simp
  | cons sec rest ih =>
    rw [List.foldl_cons, ih]
    by_cases h : sec.isAtomSection = true
    · simp only [h, if_true, List.filter_cons_of_pos, List.map_cons, List.flatten_cons]
      unfold SymbolTable.addSymbol
      rw [foldl_append_singleton sec.atoms
        (fun atom => Sym.mk atom.atom sec.ordinal atom.virtualAddr)]
      simp
    · simp [h]

/-- C8. `buildStaticSymbolTable` adds to `.symtab`, after what it holds: one symbol per atom of
every atom-bearing section of the layout, in layout order, with the section's ordinal and the
atom's virtual address; then one symbol per absolute atom of the layout, with `SHN_ABS` and the
atom's value; then one symbol per undefined atom of the file, with `SHN_UNDEF` and the value 0.
So the section index of every added symbol is the ordinal of an atom-bearing section of the
layout, `SHN_ABS` or `SHN_UNDEF`, and the number of added symbols is the sum of the three
counts. -/
theorem static_symbol_table_contents (file : File) (w : Writer) :
    ∃ added : List Sym,
      (buildStaticSymbolTable file w).symtab = w.symtab ++ added ∧
      added =
        ((w.layout.sections.filter Chunk.isAtomSection).map (fun sec =>
          sec.atoms.map (fun atom => Sym.mk atom.atom sec.ordinal atom.virtualAddr))).flatten ++
        w.layout.absoluteAtoms.map (fun atom =>
          Sym.mk atom.atom SHN_ABS atom.virtualAddr) ++
        file.undefined.map (fun a => Sym.mk a SHN_UNDEF 0) ∧
      (∀ s ∈ added,
        (∃ sec ∈ w.layout.sections, sec.kind = Kind.K_AtomSection ∧
          s.sectionIndex = sec.ordinal) ∨
        s.sectionIndex = SHN_ABS ∨ s.sectionIndex = SHN_UNDEF) ∧
      added.length =
        ((w.layout.sections.filter Chunk.isAtomSection).map (fun sec => sec.atoms.length)).sum +
          w.layout.absoluteAtoms.length + file.undefined.length := by
  refine ⟨_, ?_, rfl, ?_, ?_⟩
  · unfold buildStaticSymbolTable
    simp only [sections_loop]
    unfold SymbolTable.addSymbol
    rw [foldl_append_singleton w.layout.absoluteAtoms (fun atom =>
        Sym.mk atom.atom SHN_ABS atom.virtualAddr),
      foldl_append_singleton file.undefined (fun a =>
        Sym.mk a SHN_UNDEF 0)]
    simp [List.append_assoc]
  · intro s hs
    simp only [List.mem_append, List.mem_flatten, List.mem_map, List.mem_filter] at hs
    rcases hs with (⟨l, ⟨sec, ⟨hsec, hk⟩, rfl⟩, hl⟩ | ⟨a, -, rfl⟩) | ⟨a, -, rfl⟩
    · left
      obtain ⟨a, -, rfl⟩ := List.mem_map.1 hl
      exact ⟨sec, hsec, by simpa [Chunk.isAtomSection] using hk, rfl⟩
    · right; left; rfl
    · right; right; rfl
  · simp only [List.length_append, List.length_map, List.length_flatten, List.map_map]
    congr 3
    exact List.map_congr_left (fun sec _ => by simp)

theorem appendSection_loop (ms : List MergedSections) (p : MergedSections → Bool)
    (t0 : SectionHeader) :
    (ms.foldl
      (fun (t : SectionHeader) (mergedSec : MergedSections) =>
        if mergedSec.kind ≠ Kind.K_ELFSection ∧ mergedSec.kind ≠ Kind.K_AtomSection then t
        else if p mergedSec then t.appendSection mergedSec
        else t)
      t0).entries.map (fun e => e.sec) =
    t0.entries.map (fun e => e.sec) ++ ms.filter (fun m => m.isSectionKind && p m) := by
  induction ms generalizing t0 with
  | nil => simp
  | cons m rest ih =>
    rw [List.foldl_cons, ih]
    by_cases hk : m.kind ≠ Kind.K_ELFSection ∧ m.kind ≠ Kind.K_AtomSection
    · have : m.isSectionKind = false := by
        simp [MergedSections.isSectionKind, hk.1, hk.2]
      simp [hk, this]
    · have : m.isSectionKind = true := by
        simp only [MergedSections.isSectionKind, Bool.or_eq_true, decide_eq_true_eq]
        by_contra hc
        exact hk ⟨fun h => hc (Or.inl h), fun h => hc (Or.inr h)⟩
      by_cases hp : p m = true
      · simp [hk, this, hp, SectionHeader.appendSection]
      · simp [hk, this, hp]

theorem updateEntry_sec (l : List Shdr) (i : Nat) (c : Chunk) :
    (updateEntry l i c).map (fun e => e.sec) = l.map (fun e => e.sec) := by
  induction l generalizing i with
  | nil => rfl
  | cons e rest ih =>
    cases i with
    | zero => rfl
    | succ i => simp [updateEntry, ih]

theorem updateSection_loop (sections : List Chunk) (q : Chunk → Bool) (t0 : SectionHeader) :
    (sections.foldl
      (fun (t : SectionHeader) (sec : Chunk) =>
        if sec.isSection then
          if !q sec then t.updateSection sec else t
        else t)
      t0).entries.map (fun e => e.sec) = t0.entries.map (fun e => e.sec) := by
  induction sections generalizing t0 with
  | nil => rfl
  | cons sec rest ih =>
    rw [List.foldl_cons, ih]
    by_cases h1 : sec.isSection = true
    · by_cases h2 : q sec = true
      · simp [h1, h2]
      · simp [h1, h2, SectionHeader.updateSection, updateEntry_sec]
    · simp [h1]

/-- C9. After `buildSectionHeaderTable` followed by `assignSectionsWithNoSegments`, the merged
sections appended to the section-header table are, after what the table held, the sections of
kind `K_ELFSection` or `K_AtomSection` that have a segment, in the order of `mergedSections`,
then those of these kinds that have no segment, in the order of `mergedSections`. So every
merged section of the two kinds is appended as often as it is in `mergedSections` (once), one
of another kind never, and the ones with a segment precede the ones without. -/
theorem section_header_table_order (env : Env) (w : Writer) :
    ∃ withSegment withoutSegment : List MergedSections,
      (assignSectionsWithNoSegments env (buildSectionHeaderTable w)).shdrtab.entries.map
          (fun e => e.sec) =
        w.shdrtab.entries.map (fun e => e.sec) ++ (withSegment ++ withoutSegment) ∧
      withSegment =
        w.layout.mergedSections.filter (fun m => m.isSectionKind && m.hasSegment) ∧
      withoutSegment =
        w.layout.mergedSections.filter (fun m => m.isSectionKind && !m.hasSegment) ∧
      (withSegment ++ withoutSegment).Perm
        (w.layout.mergedSections.filter
          (fun m => m.kind = Kind.K_ELFSection ∨ m.kind = Kind.K_AtomSection)) ∧
      (∀ m, (withSegment ++ withoutSegment).count m =
        if m.kind = Kind.K_ELFSection ∨ m.kind = Kind.K_AtomSection
        then w.layout.mergedSections.count m else 0) ∧
      (∀ m ∈ withSegment, m.hasSegment = true) ∧
      (∀ m ∈ withoutSegment, m.hasSegment = false) ∧
      withSegment.Sublist w.layout.mergedSections ∧
      withoutSegment.Sublist w.layout.mergedSections := by
  have hperm : (w.layout.mergedSections.filter (fun m => m.isSectionKind && m.hasSegment) ++
      w.layout.mergedSections.filter (fun m => m.isSectionKind && !m.hasSegment)).Perm
      (w.layout.mergedSections.filter
        (fun m => m.kind = Kind.K_ELFSection ∨ m.kind = Kind.K_AtomSection)) := by
    have h := List.filter_append_perm (fun m : MergedSections => m.hasSegment)
      (w.layout.mergedSections.filter MergedSections.isSectionKind)
    simp only [List.filter_filter] at h
    have e1 : (fun m : MergedSections => m.hasSegment && m.isSectionKind) =
        (fun m => m.isSectionKind && m.hasSegment) := by
      funext m; exact Bool.and_comm _ _
    have e2 : (fun m : MergedSections => (!m.hasSegment) && m.isSectionKind) =
        (fun m => m.isSectionKind && !m.hasSegment) := by
      funext m; exact Bool.and_comm _ _
    have e3 : (fun m : MergedSections =>
        decide (m.kind = Kind.K_ELFSection ∨ m.kind = Kind.K_AtomSection)) =
        MergedSections.isSectionKind := by
      funext m; simp [MergedSections.isSectionKind]
    rw [e1, e2] at h
    rw [e3]
    exact h
  refine ⟨_, _, ?_, rfl, rfl, hperm, fun m => ?_, ?_, ?_, List.filter_sublist _,
    List.filter_sublist _⟩
  · unfold assignSectionsWithNoSegments buildSectionHeaderTable
    simp only []
    rw [updateSection_loop, appendSection_loop _ (fun m => !m.hasSegment),
      appendSection_loop _ (fun m => m.hasSegment), List.append_assoc]
  · rw [hperm.count_eq]
    by_cases hk : m.kind = Kind.K_ELFSection ∨ m.kind = Kind.K_AtomSection
    · rw [if_pos hk, List.count_filter (by simpa using hk)]
    · rw [if_neg hk, List.count_eq_zero]
      intro hm
      have := (List.mem_filter.1 hm).2
      exact hk (by simpa using this)
  · intro m hm
    have := (List.mem_filter.1 hm).2
    simp only [Bool.and_eq_true] at this
    exact this.2
  · intro m hm
    have := (List.mem_filter.1 hm).2
    simp only [Bool.and_eq_true, Bool.not_eq_true'] at this
    exact this.2

end elf
end lld
